import Mathlib

/-!
Verification of the `sql_types` and `sql_engine` crates of the database
repository.  Rust strings (`&str`) are modelled as lists of Unicode scalar
values (`RStr`), byte sequences (`Vec<u8>`, `&[u8]`) as lists of naturals
below 256, machine integers as `Int` with explicit two's-complement
reduction, and panics (`unimplemented!`, failed `unwrap`) as `Option.none`
or `Except.error`.
-/

set_option maxRecDepth 4000

/-- Model of a Rust `&str` / `String`: the sequence of Unicode scalar values
(code points) of the string. -/
abbrev RStr := List Nat

/-- Unicode scalar values are code points outside the surrogate range and at
most `0x10FFFF`. -/
def ValidScalar (c : Nat) : Prop := c < 0xD800 ∨ (0xE000 ≤ c ∧ c ≤ 0x10FFFF)

instance (c : Nat) : Decidable (ValidScalar c) := by
  unfold ValidScalar
  infer_instance

/-- Wellformedness of an `RStr`: every code point is a Unicode scalar value. -/
def ValidStr (s : RStr) : Prop := ∀ c ∈ s, ValidScalar c

instance (s : RStr) : Decidable (ValidStr s) := by
  unfold ValidStr
  infer_instance

/-- Error codes of the `lexical` crate (version 5.x) used by the integer
constraints and serializers: `Empty` for an input with no digits,
`InvalidDigit` for a non-digit byte, `Overflow`/`Underflow` for values
outside the integer type's range. -/
inductive LexErrorCode
  | Overflow
  | Underflow
  | InvalidDigit
  | Empty
deriving DecidableEq

/-- ASCII decimal digit test (`0`..`9`, code points 48..57). -/
def isDigitCp (c : Nat) : Bool := 48 ≤ c && c ≤ 57

/-- Digit loop of `lexical::parse` for signed integers: consume decimal
digits left to right, accumulating with checked arithmetic against the
bounds `mn`/`mx`; a non-digit yields `InvalidDigit`, overflow of the
accumulator yields `Overflow` (positive) or `Underflow` (negative). -/
def parseDigits (mn mx : Int) (neg : Bool) : Int → List Nat → Except LexErrorCode Int
  | acc, [] => .ok acc
  | acc, c :: cs =>
    if isDigitCp c then
      let acc' : Int := if neg then acc * 10 - ((c - 48 : Nat) : Int) else acc * 10 + ((c - 48 : Nat) : Int)
      if mx < acc' then .error .Overflow
      else if acc' < mn then .error .Underflow
      else parseDigits mn mx neg acc' cs
    else .error .InvalidDigit

/-- Model of `lexical::parse::<iN, _>` (complete signed-decimal parse): an
optional leading `+` or `-` sign followed by at least one decimal digit;
all input bytes must be consumed. -/
def lexicalParse (mn mx : Int) (s : RStr) : Except LexErrorCode Int :=
  match s with
  | [] => .error .Empty
  | c :: rest =>
    if c = 43 then (if rest.isEmpty then .error .Empty else parseDigits mn mx false 0 rest)
    else if c = 45 then (if rest.isEmpty then .error .Empty else parseDigits mn mx true 0 rest)
    else parseDigits mn mx false 0 (c :: rest)

/-- The `ConstraintError` enum of `sql_types`. -/
inductive ConstraintError
  | OutOfRange
  | NotAnInt
  | ValueTooLong
deriving DecidableEq

/-- Shared classification of a `lexical` outcome used by the three integer
constraints: `Ok(_) => Ok(())`, `Err(e) if e.code == InvalidDigit =>
NotAnInt`, `Err(_) => OutOfRange`. -/
def intClassify : Except LexErrorCode Int → Except ConstraintError Unit
  | .ok _ => .ok ()
  | .error .InvalidDigit => .error .NotAnInt
  | .error _ => .error .OutOfRange

/-- `SmallIntTypeConstraint::validate` (parse as `i16`). -/
def SmallIntTypeConstraint.validate (s : RStr) : Except ConstraintError Unit :=
  intClassify (lexicalParse (-32768) 32767 s)

/-- `IntegerSqlTypeConstraint::validate` (parse as `i32`). -/
def IntegerSqlTypeConstraint.validate (s : RStr) : Except ConstraintError Unit :=
  intClassify (lexicalParse (-2147483648) 2147483647 s)

/-- `BigIntTypeConstraint::validate` (parse as `i64`). -/
def BigIntTypeConstraint.validate (s : RStr) : Except ConstraintError Unit :=
  intClassify (lexicalParse (-9223372036854775808) 9223372036854775807 s)

/-- Big-endian byte decomposition of a natural number into exactly `w`
bytes, the model of `iN::to_be_bytes` applied to the two's-complement bit
pattern. -/
def natToBeBytes : Nat → Nat → List Nat
  | 0, _ => []
  | w + 1, n => natToBeBytes w (n / 256) ++ [n % 256]

/-- Big-endian reassembly of a byte sequence, the model of
`uN::from_be_bytes`. -/
def fromBeNat (bs : List Nat) : Nat := bs.foldl (fun a b => a * 256 + b) 0

/-- Signed reading of a `w`-byte big-endian value: two's-complement
interpretation, the model of `iN::from_be_bytes`. -/
def sdecodeBe (w : Nat) (u : Nat) : Int :=
  if u < 2 ^ (8 * w - 1) then (u : Int) else (u : Int) - 2 ^ (8 * w)

/-- Decimal digit characters of a natural number, most significant first,
as produced by Rust's `to_string` on unsigned values. -/
def natDecimalChars (n : Nat) : List Nat :=
  if n = 0 then [48] else ((Nat.digits 10 n).map (fun d => d + 48)).reverse

/-- Model of `iN::to_string`: minus sign for negatives followed by the
decimal digits of the absolute value. -/
def intToDecimalStr (v : Int) : RStr :=
  if v < 0 then 45 :: natDecimalChars v.natAbs else natDecimalChars v.natAbs

/-- Common shape of the integer serializers' `ser`: parse with `lexical`
and emit the `w`-byte big-endian two's-complement pattern of the parsed
value; on a parse error the source hits `unimplemented!` (modelled as
`none`). -/
def intSer (mn mx : Int) (w : Nat) (s : RStr) : Option (List Nat) :=
  match lexicalParse mn mx s with
  | .ok v => some (natToBeBytes w ((v % ((2 : Int) ^ (8 * w))).toNat))
  | .error _ => none

/-- Common shape of the integer serializers' `des`: take the first `w`
bytes (`out_value[0..w]` panics when fewer are present, modelled as
`none`), reassemble big-endian, interpret as a signed `8w`-bit value and
format in decimal. -/
def intDes (w : Nat) (bs : List Nat) : Option RStr :=
  if w ≤ bs.length then some (intToDecimalStr (sdecodeBe w (fromBeNat (bs.take w)))) else none

/-- `SmallIntTypeSerializer::ser`. -/
def SmallIntTypeSerializer.ser : RStr → Option (List Nat) := intSer (-32768) 32767 2

/-- `SmallIntTypeSerializer::des`. -/
def SmallIntTypeSerializer.des : List Nat → Option RStr := intDes 2

/-- `IntegerSqlTypeSerializer::ser`. -/
def IntegerSqlTypeSerializer.ser : RStr → Option (List Nat) := intSer (-2147483648) 2147483647 4

/-- `IntegerSqlTypeSerializer::des`. -/
def IntegerSqlTypeSerializer.des : List Nat → Option RStr := intDes 4

/-- `BigIntTypeSerializer::ser`. -/
def BigIntTypeSerializer.ser : RStr → Option (List Nat) :=
  intSer (-9223372036854775808) 9223372036854775807 8

/-- `BigIntTypeSerializer::des`. -/
def BigIntTypeSerializer.des : List Nat → Option RStr := intDes 8

/-- Rust `char::is_whitespace`: the Unicode `White_Space` property
(U+0009..U+000D, U+0020, U+0085, U+00A0, U+1680, U+2000..U+200A, U+2028,
U+2029, U+202F, U+205F, U+3000). -/
def isRustWhitespace (c : Nat) : Bool :=
  (9 ≤ c && c ≤ 13) || c = 32 || c = 133 || c = 160 || c = 5760 ||
  (8192 ≤ c && c ≤ 8202) || c = 8232 || c = 8233 || c = 8239 || c = 8287 || c = 12288

/-- Model of `str::trim_end`: remove trailing characters satisfying
`char::is_whitespace`. -/
def trimEnd (s : RStr) : RStr := (s.reverse.dropWhile isRustWhitespace).reverse

/-- UTF-8 encoded size of a scalar value (Rust `char::len_utf8`). -/
def utf8Size (c : Nat) : Nat :=
  if c < 128 then 1 else if c < 2048 then 2 else if c < 65536 then 3 else 4

/-- Model of `str::len`: the length in bytes of the UTF-8 encoding. -/
def byteLen (s : RStr) : Nat := (s.map utf8Size).sum

/-- `CharSqlTypeConstraint::validate`: right-trim, then compare the byte
length of the trimmed value with the declared `length`. -/
def CharSqlTypeConstraint.validate (length : Nat) (s : RStr) : Except ConstraintError Unit :=
  if length < byteLen (trimEnd s) then .error .ValueTooLong else .ok ()

/-- `VarCharSqlTypeConstraint::validate`: same body as the `Char`
constraint. -/
def VarCharSqlTypeConstraint.validate (length : Nat) (s : RStr) : Except ConstraintError Unit :=
  if length < byteLen (trimEnd s) then .error .ValueTooLong else .ok ()

/-- UTF-8 encoding of one Unicode scalar value. -/
def utf8EncodeChar (c : Nat) : List Nat :=
  if c < 128 then [c]
  else if c < 2048 then [192 + c / 64, 128 + c % 64]
  else if c < 65536 then [224 + c / 4096, 128 + (c / 64) % 64, 128 + c % 64]
  else [240 + c / 262144, 128 + (c / 4096) % 64, 128 + (c / 64) % 64, 128 + c % 64]

/-- UTF-8 encoding of a string, the model of `str::as_bytes`. -/
def utf8Encode : RStr → List Nat
  | [] => []
  | c :: cs => utf8EncodeChar c ++ utf8Encode cs

/-- UTF-8 continuation byte test. -/
def isCont (b : Nat) : Bool := 128 ≤ b && b ≤ 191

/-- Decoding of one UTF-8 scalar value from the front of a byte sequence,
rejecting truncated sequences, stray continuation bytes, overlong forms,
surrogates and values above U+10FFFF; returns the scalar and the remaining
bytes. -/
def utf8DecodeOne : List Nat → Option (Nat × List Nat)
  | [] => none
  | b0 :: bs =>
    if b0 < 128 then some (b0, bs)
    else if b0 < 194 then none
    else if b0 < 224 then
      match bs with
      | b1 :: bs1 => if isCont b1 then some ((b0 - 192) * 64 + (b1 - 128), bs1) else none
      | [] => none
    else if b0 < 240 then
      match bs with
      | b1 :: b2 :: bs2 =>
        if isCont b1 && isCont b2 then
          let cp := (b0 - 224) * 4096 + (b1 - 128) * 64 + (b2 - 128)
          if 2048 ≤ cp ∧ (cp < 55296 ∨ 57343 < cp) then some (cp, bs2) else none
        else none
      | _ => none
    else if b0 < 245 then
      match bs with
      | b1 :: b2 :: b3 :: bs3 =>
        if isCont b1 && isCont b2 && isCont b3 then
          let cp := (b0 - 240) * 262144 + (b1 - 128) * 4096 + (b2 - 128) * 64 + (b3 - 128)
          if 65536 ≤ cp ∧ cp ≤ 1114111 then some (cp, bs3) else none
        else none
      | _ => none
    else none

/-- Iterated UTF-8 decoding, driven by a fuel counter; `utf8DecodeOne`
consumes at least one byte per step, so fuel equal to the byte count is
always sufficient. -/
def utf8DecodeFuel : Nat → List Nat → Option RStr
  | _, [] => some []
  | 0, _ :: _ => none
  | fuel + 1, b0 :: bs =>
    match utf8DecodeOne (b0 :: bs) with
    | none => none
    | some (c, rest) => (utf8DecodeFuel fuel rest).map (fun r => c :: r)

/-- Strict UTF-8 decoding of a whole byte sequence, the model of
`String::from_utf8`. -/
def utf8Decode (bs : List Nat) : Option RStr := utf8DecodeFuel bs.length bs

/-- `CharSqlTypeSerializer::ser`: the raw bytes of the right-trimmed
input. -/
def CharSqlTypeSerializer.ser (s : RStr) : List Nat := utf8Encode (trimEnd s)

/-- `CharSqlTypeSerializer::des`: `String::from_utf8(..).unwrap()`; the
panic on malformed UTF-8 is modelled as `none`. -/
def CharSqlTypeSerializer.des (bs : List Nat) : Option RStr := utf8Decode bs

/-- `VarCharSqlTypeSerializer::ser`: same body as the `Char` serializer. -/
def VarCharSqlTypeSerializer.ser (s : RStr) : List Nat := utf8Encode (trimEnd s)

/-- `VarCharSqlTypeSerializer::des`: same body as the `Char` serializer. -/
def VarCharSqlTypeSerializer.des (bs : List Nat) : Option RStr := utf8Decode bs

deriving instance DecidableEq for Except

/-- The `SqlType` enum of `sql_types` (declared lengths modelled as `Nat`). -/
inductive SqlType
  | Bool
  | Char (length : Nat)
  | VarChar (length : Nat)
  | Decimal
  | SmallInt
  | Integer
  | BigInt
  | Real
  | DoublePrecision
  | Time
  | TimeWithTimeZone
  | Timestamp
  | TimestampWithTimeZone
  | Date
  | Interval
deriving DecidableEq

/-- Modelled from the spec: `protocol::sql_types::PostgreSqlType` (the
`WireType`) lives in the `protocol` crate, which is not under `src/`; the
spec and the usage in `SqlType::to_pg_types` give one parameterless variant
per `SqlType` variant. -/
inductive PostgreSqlType
  | Bool
  | Char
  | VarChar
  | Decimal
  | SmallInt
  | Integer
  | BigInt
  | Real
  | DoublePrecision
  | Time
  | TimeWithTimeZone
  | Timestamp
  | TimestampWithTimeZone
  | Date
  | Interval
deriving DecidableEq

/-- `SqlType::to_pg_types`. -/
def SqlType.to_pg_types : SqlType → PostgreSqlType
  | .Bool => .Bool
  | .Char _ => .Char
  | .VarChar _ => .VarChar
  | .Decimal => .Decimal
  | .SmallInt => .SmallInt
  | .Integer => .Integer
  | .BigInt => .BigInt
  | .Real => .Real
  | .DoublePrecision => .DoublePrecision
  | .Time => .Time
  | .TimeWithTimeZone => .TimeWithTimeZone
  | .Timestamp => .Timestamp
  | .TimestampWithTimeZone => .TimestampWithTimeZone
  | .Date => .Date
  | .Interval => .Interval

/-- The possible values of the `Box<dyn Constraint>` trait objects built by
`SqlType::constraint`: one tag per `impl Constraint` in `sql_types`. -/
inductive ConstraintObj
  | smallInt
  | integer
  | bigInt
  | charC (length : Nat)
  | varCharC (length : Nat)
deriving DecidableEq

/-- Dynamic dispatch of `Constraint::validate` over the five
implementations. -/
def ConstraintObj.validate : ConstraintObj → RStr → Except ConstraintError Unit
  | .smallInt, s => SmallIntTypeConstraint.validate s
  | .integer, s => IntegerSqlTypeConstraint.validate s
  | .bigInt, s => BigIntTypeConstraint.validate s
  | .charC length, s => CharSqlTypeConstraint.validate length s
  | .varCharC length, s => VarCharSqlTypeConstraint.validate length s

/-- The possible values of the `Box<dyn Serializer>` trait objects built by
`SqlType::serializer`; none of the serializer structs carries a field. -/
inductive SerializerObj
  | smallInt
  | integer
  | bigInt
  | charS
  | varCharS
deriving DecidableEq

/-- Dynamic dispatch of `Serializer::ser` (panics modelled as `none`). -/
def SerializerObj.ser : SerializerObj → RStr → Option (List Nat)
  | .smallInt, s => SmallIntTypeSerializer.ser s
  | .integer, s => IntegerSqlTypeSerializer.ser s
  | .bigInt, s => BigIntTypeSerializer.ser s
  | .charS, s => some (CharSqlTypeSerializer.ser s)
  | .varCharS, s => some (VarCharSqlTypeSerializer.ser s)

/-- Dynamic dispatch of `Serializer::des` (panics modelled as `none`). -/
def SerializerObj.des : SerializerObj → List Nat → Option RStr
  | .smallInt, bs => SmallIntTypeSerializer.des bs
  | .integer, bs => IntegerSqlTypeSerializer.des bs
  | .bigInt, bs => BigIntTypeSerializer.des bs
  | .charS, bs => CharSqlTypeSerializer.des bs
  | .varCharS, bs => VarCharSqlTypeSerializer.des bs

/-- `SqlType::constraint`: defined for `Char`, `VarChar`, `SmallInt`,
`Integer`, `BigInt`; every other variant hits
`unimplemented!("Type constraint for {:?} ...", sql_type)`, modelled as an
`Except.error` carrying the offending variant. -/
def SqlType.constraint : SqlType → Except SqlType ConstraintObj
  | .Char length => .ok (.charC length)
  | .VarChar length => .ok (.varCharC length)
  | .SmallInt => .ok .smallInt
  | .Integer => .ok .integer
  | .BigInt => .ok .bigInt
  | sql_type => .error sql_type

/-- `SqlType::serializer`: defined for the same five variants (the `Char`
and `VarChar` lengths are dropped); every other variant hits
`unimplemented!("Type Serializer for {:?} ...", sql_type)`, modelled as an
`Except.error` carrying the offending variant. -/
def SqlType.serializer : SqlType → Except SqlType SerializerObj
  | .Char _length => .ok .charS
  | .VarChar _length => .ok .varCharS
  | .SmallInt => .ok .smallInt
  | .Integer => .ok .integer
  | .BigInt => .ok .bigInt
  | sql_type => .error sql_type

/-- Modelled from the spec: the subset of the external `sqlparser` crate's
`Value` AST node matched by `UpdateCommand::execute`, plus representative
unmatched variants. -/
inductive SqlValue
  | Number (s : String)
  | SingleQuotedString (s : String)
  | Boolean (b : Bool)
  | Null
deriving DecidableEq

/-- Modelled from the spec: the external `sqlparser` crate's
`UnaryOperator` AST node. -/
inductive UnaryOperator
  | Plus
  | Minus
  | Not
deriving DecidableEq

/-- Modelled from the spec: the subset of the external `sqlparser` crate's
`Expr` AST node matched by `UpdateCommand::execute`, plus representative
unmatched shapes (`Identifier`, `Wildcard`). -/
inductive SqlExpr
  | Value (v : SqlValue)
  | UnaryOp (op : UnaryOperator) (expr : SqlExpr)
  | Identifier (s : String)
  | Wildcard
deriving DecidableEq

/-- The `sqlparser::ast::Assignment` node: a column identifier and a
right-hand expression. -/
structure Assignment where
  id : String
  value : SqlExpr
deriving DecidableEq

/-- Modelled from the spec: `kernel::SystemError` (system-level plane), not
under `src/`; its structure is irrelevant to the commands, which forward it
unchanged. -/
inductive SystemError
  | fatal
deriving DecidableEq

/-- Modelled from the spec: the `QueryEvent` success results produced by
the three command skins. -/
inductive QueryEvent
  | SchemaCreated
  | SchemaDropped
  | RecordsUpdated (n : Nat)
deriving DecidableEq

/-- Modelled from the spec: the `protocol::results::QueryError`
constructors named in the error-translation table. -/
inductive QueryError
  | schema_already_exists (name : String)
  | schema_does_not_exist (name : String)
  | table_does_not_exist (name : String)
  | column_does_not_exist (names : List String)
  | not_supported_operation (sql : String)
deriving DecidableEq

/-- `protocol::results::QueryResult`. -/
abbrev QueryResult := Except QueryError QueryEvent

/-- `kernel::SystemResult`. -/
abbrev SystemResult (α : Type) := Except SystemError α

/-- Modelled from the spec: `storage::SchemaAlreadyExists`. -/
inductive SchemaAlreadyExists
  | mk
deriving DecidableEq

/-- Modelled from the spec: `storage::SchemaDoesNotExist`. -/
inductive SchemaDoesNotExist
  | mk
deriving DecidableEq

/-- Modelled from the spec: `storage::OperationOnTableError`; the variants
named in the spec's translation table plus a representative of the "any
other operation failure" arm. -/
inductive OperationOnTableError
  | SchemaDoesNotExist
  | TableDoesNotExist
  | ColumnDoesNotExist (names : List String)
  | OtherOperationFailure
deriving DecidableEq

/-- Reduction of one assignment's right-hand expression to a textual
literal, as performed inline in `UpdateCommand::execute`: a numeric literal
yields its text, a single-quoted string its unquoted text, unary minus on a
numeric literal `"-"` plus the text; every other shape hits
`unimplemented!`, modelled as `none`. -/
def reduceValue : SqlExpr → Option String
  | .Value (.Number val) => some val
  | .Value (.SingleQuotedString v) => some v
  | .UnaryOp op expr =>
    match op, expr with
    | .Minus, .Value (.Number v) => some ("-" ++ v)
    | _, _ => none
  | _ => none

/-- The `to_update` collection loop of `UpdateCommand::execute`: reduce
each assignment, stopping at the first panic. -/
def reduceAssignments : List Assignment → Option (List (String × String))
  | [] => some []
  | a :: rest =>
    match reduceValue a.value with
    | some v => (reduceAssignments rest).map (fun l => (a.id, v) :: l)
    | none => none

/-- `CreateSchemaCommand::execute`, with the storage frontend's
`create_schema` passed explicitly (the `storage` crate is not under
`src/`); the `ObjectName` is modelled after `to_string` conversion. -/
def CreateSchemaCommand.execute (schema_name : String)
    (create_schema : String → SystemResult (Except SchemaAlreadyExists Unit)) :
    SystemResult QueryResult :=
  match create_schema schema_name with
  | .error e => .error e
  | .ok (.ok ()) => .ok (.ok .SchemaCreated)
  | .ok (.error _) => .ok (.error (.schema_already_exists schema_name))

/-- `DropSchemaCommand::execute`, with the storage frontend's `drop_schema`
passed explicitly; `self.name.0[0]` panics on an empty `ObjectName`,
modelled as `none`. -/
def DropSchemaCommand.execute (name : List String)
    (drop_schema : String → SystemResult (Except SchemaDoesNotExist Unit)) :
    Option (SystemResult QueryResult) :=
  match name.get? 0 with
  | none => none
  | some schema_name =>
    some (match drop_schema schema_name with
      | .error e => .error e
      | .ok (.ok ()) => .ok (.ok .SchemaDropped)
      | .ok (.error _) => .ok (.error (.schema_does_not_exist schema_name)))

/-- `UpdateCommand::execute`, with the storage frontend's `update_all`
passed explicitly.  The `ObjectName` indexing `self.name.0[0]` /
`self.name.0[1]` and the `unimplemented!` on unsupported assignment shapes
are panics, modelled as `none`; the storage call only happens after the
whole assignment list reduced. -/
def UpdateCommand.execute (raw_sql_query : String) (name : List String)
    (assignments : List Assignment)
    (update_all : String → String → List (String × String) →
      SystemResult (Except OperationOnTableError Nat)) :
    Option (SystemResult QueryResult) :=
  match name.get? 0, name.get? 1 with
  | some schema_name, some table_name =>
    match reduceAssignments assignments with
    | none => none
    | some to_update =>
      some (match update_all schema_name table_name to_update with
        | .error e => .error e
        | .ok (.ok records_number) => .ok (.ok (.RecordsUpdated records_number))
        | .ok (.error .SchemaDoesNotExist) => .ok (.error (.schema_does_not_exist schema_name))
        | .ok (.error .TableDoesNotExist) =>
          .ok (.error (.table_does_not_exist (schema_name ++ "." ++ table_name)))
        | .ok (.error (.ColumnDoesNotExist non_existing_columns)) =>
          .ok (.error (.column_does_not_exist non_existing_columns))
        | .ok (.error _) => .ok (.error (.not_supported_operation raw_sql_query)))
  | _, _ => none

/-! ### Specification-side characterizations -/

/-- Horner value of a decimal digit string (most significant first), the
mathematical value `parseDigits` accumulates on the positive path. -/
def digitsVal (ds : List Nat) : Nat := ds.foldl (fun a c => a * 10 + (c - 48)) 0

/-- Sign analysis of a textual integer: whether it starts with `-`, and the
remaining characters after an optional leading `+` or `-`. -/
def stripSign (s : RStr) : Bool × RStr :=
  match s with
  | [] => (false, [])
  | c :: rest =>
    if c = 43 then (false, rest)
    else if c = 45 then (true, rest)
    else (false, c :: rest)

/-- Shape of a fully-parsable signed decimal integer: after the optional
sign there is at least one character and every character is a digit. -/
def IntDigits (s : RStr) : Prop :=
  (stripSign s).2 ≠ [] ∧ ∀ c ∈ (stripSign s).2, isDigitCp c = true

instance (s : RStr) : Decidable (IntDigits s) := by
  unfold IntDigits
  infer_instance

/-- Signed value of a textual integer of shape `IntDigits`. -/
def sVal (s : RStr) : Int :=
  if (stripSign s).1 then -(digitsVal (stripSign s).2 : Int) else (digitsVal (stripSign s).2 : Int)

/-- Magnitude bound enforced by the checked accumulation for the sign of
`s` within the range `[mn, mx]`. -/
def magBound (mn mx : Int) (s : RStr) : Int := if (stripSign s).1 then -mn else mx

/-- Leading zeros of a digit string dropped, keeping a single `0` when
nothing remains. -/
def stripZeros (ds : RStr) : RStr :=
  match ds.dropWhile (fun c => c == 48) with
  | [] => [48]
  | r => r

/-- Modelled from the spec: `canonicalize` strips a leading `+`, collapses
`-0` to `0`, and drops leading zeros. -/
def canonicalize (s : RStr) : RStr :=
  let s1 := if s.head? = some 43 then s.tail else s
  if s1.head? = some 45 then
    (if stripZeros s1.tail = [48] then [48] else 45 :: stripZeros s1.tail)
  else stripZeros s1

/-- Specification-side big-endian valuation of a byte sequence: the little-
endian digit valuation of its reversal in base 256. -/
def beVal (bs : List Nat) : Nat := Nat.ofDigits 256 bs.reverse

/-- Characterization of a decimal string representation: an optional minus
sign (exactly for negative values) followed by a nonempty digit string with
the right value and no leading zero. -/
def IsDecimalRepr (v : Int) (o : RStr) : Prop :=
  ∃ m : RStr, o = (if v < 0 then 45 :: m else m) ∧ m ≠ [] ∧
    (∀ c ∈ m, isDigitCp c = true) ∧ (digitsVal m : Int) = |v| ∧
    (m.head? = some 48 → m = [48])

/-- Positive-path reference accumulator of `parseDigits`. -/
def accPos (acc : Int) : List Nat → Int
  | [] => acc
  | c :: cs => accPos (acc * 10 + ((c - 48 : Nat) : Int)) cs

/-- Negative-path reference accumulator of `parseDigits`. -/
def accNeg (acc : Int) : List Nat → Int
  | [] => acc
  | c :: cs => accNeg (acc * 10 - ((c - 48 : Nat) : Int)) cs

/-! ### Arithmetic lemmas about the accumulators -/

theorem foldl_base_eq_ofDigits (b : Nat) (f : Nat → Nat) (l : List Nat) (a : Nat) :
    l.foldl (fun x c => x * b + f c) a = a * b ^ l.length + Nat.ofDigits b ((l.map f).reverse) := by
  induction l generalizing a with
  | nil => simp [Nat.ofDigits]
  | cons c cs ih =>
    simp only [List.foldl_cons, List.map_cons, List.reverse_cons, List.length_cons]
    rw [ih, Nat.ofDigits_append]
    simp [Nat.ofDigits, pow_succ]
    ring

theorem digitsVal_eq_ofDigits (ds : List Nat) :
    digitsVal ds = Nat.ofDigits 10 ((ds.map (fun c => c - 48)).reverse) := by
  have h := foldl_base_eq_ofDigits 10 (fun c => c - 48) ds 0
  simpa [digitsVal] using h

theorem fromBeNat_eq_beVal (bs : List Nat) : fromBeNat bs = beVal bs := by
  have h := foldl_base_eq_ofDigits 256 (fun c => c) bs 0
  simpa [fromBeNat, beVal, List.map_id] using h

theorem accPos_cast (ds : List Nat) (a : Nat) :
    accPos (a : Int) ds = (ds.foldl (fun x c => x * 10 + (c - 48)) a : Nat) := by
  induction ds generalizing a with
  | nil => simp [accPos]
  | cons c cs ih =>
    simp only [accPos, List.foldl_cons]
    have : ((a : Int) * 10 + ((c - 48 : Nat) : Int)) = ((a * 10 + (c - 48) : Nat) : Int) := by
      push_cast
      ring
    rw [this, ih]

theorem accPos_zero_eq_digitsVal (ds : List Nat) : accPos 0 ds = (digitsVal ds : Int) := by
  have h := accPos_cast ds 0
  simpa [digitsVal] using h

theorem accNeg_eq_neg_accPos (ds : List Nat) (acc : Int) : accNeg acc ds = -accPos (-acc) ds := by
  induction ds generalizing acc with
  | nil => simp [accNeg, accPos]
  | cons c cs ih =>
    simp only [accNeg, accPos]
    rw [ih]
    ring_nf

theorem le_accPos (ds : List Nat) (acc : Int) (h : 0 ≤ acc) : acc ≤ accPos acc ds := by
  induction ds generalizing acc with
  | nil => simp [accPos]
  | cons c cs ih =>
    simp only [accPos]
    have h1 : acc ≤ acc * 10 + ((c - 48 : Nat) : Int) := by
      have : (0 : Int) ≤ ((c - 48 : Nat) : Int) := Int.natCast_nonneg _
      nlinarith
    exact le_trans h1 (ih _ (by omega))

theorem accNeg_le (ds : List Nat) (acc : Int) (h : acc ≤ 0) : accNeg acc ds ≤ acc := by
  rw [accNeg_eq_neg_accPos]
  have := le_accPos ds (-acc) (by omega)
  omega

/-! ### Lemmas about the integer parser, codec and decimal formatting -/

theorem parseDigits_pos_ok (mn mx : Int) (hmn : mn ≤ 0) (ds : List Nat) :
    ∀ acc : Int, 0 ≤ acc → (∀ c ∈ ds, isDigitCp c = true) → accPos acc ds ≤ mx →
    parseDigits mn mx false acc ds = .ok (accPos acc ds) := by
  induction ds with
  | nil =>
    intro acc _ _ _
    simp [parseDigits, accPos]
  | cons c cs ih =>
    intro acc hacc hall hle
    have hc : isDigitCp c = true := hall c (List.mem_cons_self c cs)
    have hacc' : (0 : Int) ≤ acc * 10 + ((c - 48 : Nat) : Int) := by
      have : (0 : Int) ≤ ((c - 48 : Nat) : Int) := Int.natCast_nonneg _
      nlinarith
    have hAcc : accPos acc (c :: cs) = accPos (acc * 10 + ((c - 48 : Nat) : Int)) cs := rfl
    have hle' : accPos (acc * 10 + ((c - 48 : Nat) : Int)) cs ≤ mx := by rw [← hAcc]; exact hle
    have hmid : acc * 10 + ((c - 48 : Nat) : Int) ≤ mx :=
      le_trans (le_accPos cs _ hacc') hle'
    simp only [parseDigits, hc, if_true, Bool.false_eq_true, if_false]
    rw [if_neg (by omega), if_neg (by omega)]
    rw [ih _ hacc' (fun d hd => hall d (List.mem_cons_of_mem c hd)) hle']
    rw [hAcc]

theorem parseDigits_neg_ok (mn mx : Int) (hmx : 0 ≤ mx) (ds : List Nat) :
    ∀ acc : Int, acc ≤ 0 → (∀ c ∈ ds, isDigitCp c = true) → mn ≤ accNeg acc ds →
    parseDigits mn mx true acc ds = .ok (accNeg acc ds) := by
  induction ds with
  | nil =>
    intro acc _ _ _
    simp [parseDigits, accNeg]
  | cons c cs ih =>
    intro acc hacc hall hge
    have hc : isDigitCp c = true := hall c (List.mem_cons_self c cs)
    have hacc' : acc * 10 - ((c - 48 : Nat) : Int) ≤ 0 := by
      have : (0 : Int) ≤ ((c - 48 : Nat) : Int) := Int.natCast_nonneg _
      nlinarith
    have hAcc : accNeg acc (c :: cs) = accNeg (acc * 10 - ((c - 48 : Nat) : Int)) cs := rfl
    have hge' : mn ≤ accNeg (acc * 10 - ((c - 48 : Nat) : Int)) cs := by rw [← hAcc]; exact hge
    have hmid : mn ≤ acc * 10 - ((c - 48 : Nat) : Int) :=
      le_trans hge' (accNeg_le cs _ hacc')
    simp only [parseDigits, hc, if_true]
    rw [if_neg (by omega), if_neg (by omega)]
    rw [ih _ hacc' (fun d hd => hall d (List.mem_cons_of_mem c hd)) hge']
    rw [hAcc]

theorem parseDigits_pos_overflow (mn mx : Int) (hmn : mn ≤ 0) (pre : List Nat) :
    ∀ (rest : List Nat) (acc : Int), 0 ≤ acc → acc ≤ mx →
    (∀ c ∈ pre, isDigitCp c = true) → mx < accPos acc pre →
    parseDigits mn mx false acc (pre ++ rest) = .error .Overflow := by
  induction pre with
  | nil =>
    intro rest acc hacc hle _ hgt
    simp only [accPos] at hgt
    omega
  | cons c cs ih =>
    intro rest acc hacc hle hall hgt
    have hc : isDigitCp c = true := hall c (List.mem_cons_self c cs)
    have hacc' : (0 : Int) ≤ acc * 10 + ((c - 48 : Nat) : Int) := by
      have : (0 : Int) ≤ ((c - 48 : Nat) : Int) := Int.natCast_nonneg _
      nlinarith
    have hAcc : accPos acc (c :: cs) = accPos (acc * 10 + ((c - 48 : Nat) : Int)) cs := rfl
    simp only [List.cons_append, parseDigits, hc, if_true, Bool.false_eq_true, if_false]
    by_cases hov : mx < acc * 10 + ((c - 48 : Nat) : Int)
    · rw [if_pos hov]
    · rw [if_neg hov, if_neg (by omega)]
      exact ih rest _ hacc' (by omega) (fun d hd => hall d (List.mem_cons_of_mem c hd))
        (by rw [← hAcc]; exact hgt)

theorem parseDigits_neg_underflow (mn mx : Int) (hmx : 0 ≤ mx) (pre : List Nat) :
    ∀ (rest : List Nat) (acc : Int), acc ≤ 0 → mn ≤ acc →
    (∀ c ∈ pre, isDigitCp c = true) → accNeg acc pre < mn →
    parseDigits mn mx true acc (pre ++ rest) = .error .Underflow := by
  induction pre with
  | nil =>
    intro rest acc hacc hge _ hlt
    simp only [accNeg] at hlt
    omega
  | cons c cs ih =>
    intro rest acc hacc hge hall hlt
    have hc : isDigitCp c = true := hall c (List.mem_cons_self c cs)
    have hacc' : acc * 10 - ((c - 48 : Nat) : Int) ≤ 0 := by
      have : (0 : Int) ≤ ((c - 48 : Nat) : Int) := Int.natCast_nonneg _
      nlinarith
    have hAcc : accNeg acc (c :: cs) = accNeg (acc * 10 - ((c - 48 : Nat) : Int)) cs := rfl
    simp only [List.cons_append, parseDigits, hc, if_true]
    rw [if_neg (by omega)]
    by_cases hun : acc * 10 - ((c - 48 : Nat) : Int) < mn
    · rw [if_pos hun]
    · rw [if_neg hun]
      exact ih rest _ hacc' (by omega) (fun d hd => hall d (List.mem_cons_of_mem c hd))
        (by rw [← hAcc]; exact hlt)

theorem parseDigits_pos_invalid (mn mx : Int) (hmn : mn ≤ 0) (pre : List Nat) :
    ∀ (c0 : Nat) (suf : List Nat) (acc : Int), 0 ≤ acc →
    (∀ c ∈ pre, isDigitCp c = true) → isDigitCp c0 = false → accPos acc pre ≤ mx →
    parseDigits mn mx false acc (pre ++ c0 :: suf) = .error .InvalidDigit := by
  induction pre with
  | nil =>
    intro c0 suf acc _ _ hc0 _
    simp [parseDigits, hc0]
  | cons c cs ih =>
    intro c0 suf acc hacc hall hc0 hle
    have hc : isDigitCp c = true := hall c (List.mem_cons_self c cs)
    have hacc' : (0 : Int) ≤ acc * 10 + ((c - 48 : Nat) : Int) := by
      have : (0 : Int) ≤ ((c - 48 : Nat) : Int) := Int.natCast_nonneg _
      nlinarith
    have hAcc : accPos acc (c :: cs) = accPos (acc * 10 + ((c - 48 : Nat) : Int)) cs := rfl
    have hle' : accPos (acc * 10 + ((c - 48 : Nat) : Int)) cs ≤ mx := by rw [← hAcc]; exact hle
    have hmid : acc * 10 + ((c - 48 : Nat) : Int) ≤ mx :=
      le_trans (le_accPos cs _ hacc') hle'
    simp only [List.cons_append, parseDigits, hc, if_true, Bool.false_eq_true, if_false]
    rw [if_neg (by omega), if_neg (by omega)]
    exact ih c0 suf _ hacc' (fun d hd => hall d (List.mem_cons_of_mem c hd)) hc0 hle'

theorem parseDigits_neg_invalid (mn mx : Int) (hmx : 0 ≤ mx) (pre : List Nat) :
    ∀ (c0 : Nat) (suf : List Nat) (acc : Int), acc ≤ 0 →
    (∀ c ∈ pre, isDigitCp c = true) → isDigitCp c0 = false → mn ≤ accNeg acc pre →
    parseDigits mn mx true acc (pre ++ c0 :: suf) = .error .InvalidDigit := by
  induction pre with
  | nil =>
    intro c0 suf acc _ _ hc0 _
    simp [parseDigits, hc0]
  | cons c cs ih =>
    intro c0 suf acc hacc hall hc0 hge
    have hc : isDigitCp c = true := hall c (List.mem_cons_self c cs)
    have hacc' : acc * 10 - ((c - 48 : Nat) : Int) ≤ 0 := by
      have : (0 : Int) ≤ ((c - 48 : Nat) : Int) := Int.natCast_nonneg _
      nlinarith
    have hAcc : accNeg acc (c :: cs) = accNeg (acc * 10 - ((c - 48 : Nat) : Int)) cs := rfl
    have hge' : mn ≤ accNeg (acc * 10 - ((c - 48 : Nat) : Int)) cs := by rw [← hAcc]; exact hge
    have hmid : mn ≤ acc * 10 - ((c - 48 : Nat) : Int) :=
      le_trans hge' (accNeg_le cs _ hacc')
    simp only [List.cons_append, parseDigits, hc, if_true]
    rw [if_neg (by omega), if_neg (by omega)]
    exact ih c0 suf _ hacc' (fun d hd => hall d (List.mem_cons_of_mem c hd)) hc0 hge'

theorem exists_first_fail (p : Nat → Bool) (l : List Nat) :
    (∀ x ∈ l, p x = true) ∨
      ∃ pre c suf, l = pre ++ c :: suf ∧ (∀ x ∈ pre, p x = true) ∧ p c = false := by
  induction l with
  | nil => exact Or.inl (by simp)
  | cons c cs ih =>
    by_cases hc : p c = true
    · rcases ih with hall | ⟨pre, c0, suf, hds, hpre, hc0⟩
      · exact Or.inl (by
          intro x hx
          rcases List.mem_cons.mp hx with h | h
          · exact h ▸ hc
          · exact hall x h)
      · refine Or.inr ⟨c :: pre, c0, suf, by simp [hds], ?_, hc0⟩
        intro x hx
        rcases List.mem_cons.mp hx with h | h
        · exact h ▸ hc
        · exact hpre x h
    · exact Or.inr ⟨[], c, cs, by simp, by simp, by simpa using hc⟩

theorem stripSign_nil : stripSign [] = (false, []) := rfl

theorem stripSign_plus (rest : RStr) : stripSign (43 :: rest) = (false, rest) := rfl

theorem stripSign_minus (rest : RStr) : stripSign (45 :: rest) = (true, rest) := rfl

theorem stripSign_other (c : Nat) (rest : RStr) (h43 : c ≠ 43) (h45 : c ≠ 45) :
    stripSign (c :: rest) = (false, c :: rest) := by
  simp [stripSign, h43, h45]

theorem lexicalParse_ok (mn mx : Int) (hmn : mn ≤ 0) (hmx : 0 ≤ mx) (s : RStr)
    (hsh : IntDigits s) (hlo : mn ≤ sVal s) (hhi : sVal s ≤ mx) :
    lexicalParse mn mx s = .ok (sVal s) := by
  obtain ⟨hne, hall⟩ := hsh
  match s with
  | [] => exact absurd rfl hne
  | (c :: rest) =>
    by_cases h43 : c = 43
    · subst h43
      rw [stripSign_plus] at hne hall
      have hv : sVal (43 :: rest) = (digitsVal rest : Int) := by
        simp [sVal, stripSign_plus]
      have hie : rest.isEmpty = false := by
        cases rest with
        | nil => exact absurd rfl hne
        | cons _ _ => rfl
      have hpd := parseDigits_pos_ok mn mx hmn rest 0 le_rfl hall
        (by rw [accPos_zero_eq_digitsVal]; omega)
      have hred : lexicalParse mn mx (43 :: rest) = parseDigits mn mx false 0 rest := by
        simp [lexicalParse, hie]
      rw [hv, hred, hpd, accPos_zero_eq_digitsVal]
    · by_cases h45 : c = 45
      · subst h45
        rw [stripSign_minus] at hne hall
        have hv : sVal (45 :: rest) = -(digitsVal rest : Int) := by
          simp [sVal, stripSign_minus]
        have hie : rest.isEmpty = false := by
          cases rest with
          | nil => exact absurd rfl hne
          | cons _ _ => rfl
        have hng : accNeg 0 rest = -(digitsVal rest : Int) := by
          rw [accNeg_eq_neg_accPos, neg_zero, accPos_zero_eq_digitsVal]
        have hpd := parseDigits_neg_ok mn mx hmx rest 0 le_rfl hall (by rw [hng]; omega)
        have hred : lexicalParse mn mx (45 :: rest) = parseDigits mn mx true 0 rest := by
          simp [lexicalParse, hie]
        rw [hv, hred, hpd, hng]
      · rw [stripSign_other c rest h43 h45] at hne hall
        have hv : sVal (c :: rest) = (digitsVal (c :: rest) : Int) := by
          simp [sVal, stripSign_other c rest h43 h45]
        have hpd := parseDigits_pos_ok mn mx hmn (c :: rest) 0 le_rfl hall
          (by rw [accPos_zero_eq_digitsVal]; omega)
        have hred : lexicalParse mn mx (c :: rest) = parseDigits mn mx false 0 (c :: rest) := by
          simp [lexicalParse, h43, h45]
        rw [hv, hred, hpd, accPos_zero_eq_digitsVal]

theorem lexicalParse_empty (mn mx : Int) (s : RStr) (h : (stripSign s).2 = []) :
    lexicalParse mn mx s = .error .Empty := by
  match s with
  | [] => rfl
  | (c :: rest) =>
    by_cases h43 : c = 43
    · subst h43
      rw [stripSign_plus] at h
      subst h
      rfl
    · by_cases h45 : c = 45
      · subst h45
        rw [stripSign_minus] at h
        subst h
        rfl
      · rw [stripSign_other c rest h43 h45] at h
        exact absurd h (by simp)

theorem lexicalParse_invalid (mn mx : Int) (hmn : mn ≤ 0) (hmx : 0 ≤ mx) (s : RStr)
    (pre : List Nat) (c0 : Nat) (suf : List Nat)
    (hds : (stripSign s).2 = pre ++ c0 :: suf)
    (hall : ∀ c ∈ pre, isDigitCp c = true) (hc0 : isDigitCp c0 = false)
    (hmag : (digitsVal pre : Int) ≤ magBound mn mx s) :
    lexicalParse mn mx s = .error .InvalidDigit := by
  match s with
  | [] =>
    rw [stripSign_nil] at hds
    replace hds : ([] : List Nat) = pre ++ c0 :: suf := hds
    exact absurd hds.symm (by simp)
  | (c :: rest) =>
    by_cases h43 : c = 43
    · subst h43
      rw [stripSign_plus] at hds
      replace hds : rest = pre ++ c0 :: suf := hds
      rw [show magBound mn mx (43 :: rest) = mx by simp [magBound, stripSign_plus]] at hmag
      have hie : rest.isEmpty = false := by
        rw [hds]
        cases pre <;> rfl
      have hred : lexicalParse mn mx (43 :: rest) = parseDigits mn mx false 0 rest := by
        simp [lexicalParse, hie]
      rw [hred, hds]
      exact parseDigits_pos_invalid mn mx hmn pre c0 suf 0 le_rfl hall hc0
        (by rw [accPos_zero_eq_digitsVal]; omega)
    · by_cases h45 : c = 45
      · subst h45
        rw [stripSign_minus] at hds
        replace hds : rest = pre ++ c0 :: suf := hds
        rw [show magBound mn mx (45 :: rest) = -mn by simp [magBound, stripSign_minus]] at hmag
        have hie : rest.isEmpty = false := by
          rw [hds]
          cases pre <;> rfl
        have hred : lexicalParse mn mx (45 :: rest) = parseDigits mn mx true 0 rest := by
          simp [lexicalParse, hie]
        have hng : accNeg 0 pre = -(digitsVal pre : Int) := by
          rw [accNeg_eq_neg_accPos, neg_zero, accPos_zero_eq_digitsVal]
        rw [hred, hds]
        exact parseDigits_neg_invalid mn mx hmx pre c0 suf 0 le_rfl hall hc0 (by rw [hng]; omega)
      · rw [stripSign_other c rest h43 h45] at hds
        replace hds : c :: rest = pre ++ c0 :: suf := hds
        rw [show magBound mn mx (c :: rest) = mx by
          simp [magBound, stripSign_other c rest h43 h45]] at hmag
        have hred : lexicalParse mn mx (c :: rest) = parseDigits mn mx false 0 (c :: rest) := by
          simp [lexicalParse, h43, h45]
        rw [hred, hds]
        exact parseDigits_pos_invalid mn mx hmn pre c0 suf 0 le_rfl hall hc0
          (by rw [accPos_zero_eq_digitsVal]; omega)

theorem lexicalParse_outOfMag (mn mx : Int) (hmn : mn ≤ 0) (hmx : 0 ≤ mx) (s : RStr)
    (pre rest0 : List Nat) (hds : (stripSign s).2 = pre ++ rest0)
    (hall : ∀ c ∈ pre, isDigitCp c = true) (hmag : magBound mn mx s < (digitsVal pre : Int)) :
    lexicalParse mn mx s = .error .Overflow ∨ lexicalParse mn mx s = .error .Underflow := by
  match s with
  | [] =>
    rw [stripSign_nil] at hds
    replace hds : ([] : List Nat) = pre ++ rest0 := hds
    exfalso
    have hpre : pre = [] := (List.append_eq_nil.mp hds.symm).1
    subst hpre
    rw [show magBound mn mx ([] : RStr) = mx by simp [magBound, stripSign_nil]] at hmag
    simp [digitsVal] at hmag
    omega
  | (c :: rest) =>
    by_cases h43 : c = 43
    · subst h43
      rw [stripSign_plus] at hds
      replace hds : rest = pre ++ rest0 := hds
      rw [show magBound mn mx (43 :: rest) = mx by simp [magBound, stripSign_plus]] at hmag
      have hpre : pre ≠ [] := by
        intro h
        subst h
        simp [digitsVal] at hmag
        omega
      have hie : rest.isEmpty = false := by
        rw [hds]
        cases pre with
        | nil => exact absurd rfl hpre
        | cons _ _ => rfl
      have hred : lexicalParse mn mx (43 :: rest) = parseDigits mn mx false 0 rest := by
        simp [lexicalParse, hie]
      rw [hred, hds]
      exact Or.inl (parseDigits_pos_overflow mn mx hmn pre rest0 0 le_rfl hmx hall
        (by rw [accPos_zero_eq_digitsVal]; omega))
    · by_cases h45 : c = 45
      · subst h45
        rw [stripSign_minus] at hds
        replace hds : rest = pre ++ rest0 := hds
        rw [show magBound mn mx (45 :: rest) = -mn by simp [magBound, stripSign_minus]] at hmag
        have hpre : pre ≠ [] := by
          intro h
          subst h
          simp [digitsVal] at hmag
          omega
        have hie : rest.isEmpty = false := by
          rw [hds]
          cases pre with
          | nil => exact absurd rfl hpre
          | cons _ _ => rfl
        have hred : lexicalParse mn mx (45 :: rest) = parseDigits mn mx true 0 rest := by
          simp [lexicalParse, hie]
        have hng : accNeg 0 pre = -(digitsVal pre : Int) := by
          rw [accNeg_eq_neg_accPos, neg_zero, accPos_zero_eq_digitsVal]
        rw [hred, hds]
        exact Or.inr (parseDigits_neg_underflow mn mx hmx pre rest0 0 le_rfl hmn hall
          (by rw [hng]; omega))
      · rw [stripSign_other c rest h43 h45] at hds
        replace hds : c :: rest = pre ++ rest0 := hds
        rw [show magBound mn mx (c :: rest) = mx by
          simp [magBound, stripSign_other c rest h43 h45]] at hmag
        have hred : lexicalParse mn mx (c :: rest) = parseDigits mn mx false 0 (c :: rest) := by
          simp [lexicalParse, h43, h45]
        rw [hred, hds]
        exact Or.inl (parseDigits_pos_overflow mn mx hmn pre rest0 0 le_rfl hmx hall
          (by rw [accPos_zero_eq_digitsVal]; omega))

theorem intClassify_eq_ok (r : Except LexErrorCode Int) :
    intClassify r = .ok () ↔ ∃ v, r = .ok v := by
  match r with
  | .ok v => simp [intClassify]
  | .error e => cases e <;> simp [intClassify]

theorem intValidate_ok_iff (mn mx : Int) (hmn : mn ≤ 0) (hmx : 0 ≤ mx) (s : RStr) :
    intClassify (lexicalParse mn mx s) = .ok () ↔
      IntDigits s ∧ mn ≤ sVal s ∧ sVal s ≤ mx := by
  constructor
  · intro hok
    by_cases hsh : IntDigits s
    · refine ⟨hsh, ?_⟩
      by_contra hr
      obtain ⟨hne, hall⟩ := hsh
      have herr : lexicalParse mn mx s = .error .Overflow ∨
          lexicalParse mn mx s = .error .Underflow := by
        apply lexicalParse_outOfMag mn mx hmn hmx s (stripSign s).2 [] (by simp) hall
        rcases hb : (stripSign s).1 with _ | _
        · rw [show sVal s = (digitsVal (stripSign s).2 : Int) by simp [sVal, hb]] at hr
          rw [show magBound mn mx s = mx by simp [magBound, hb]]
          have : (0 : Int) ≤ (digitsVal (stripSign s).2 : Int) := Int.natCast_nonneg _
          omega
        · rw [show sVal s = -(digitsVal (stripSign s).2 : Int) by simp [sVal, hb]] at hr
          rw [show magBound mn mx s = -mn by simp [magBound, hb]]
          have : (0 : Int) ≤ (digitsVal (stripSign s).2 : Int) := Int.natCast_nonneg _
          omega
      rcases herr with h | h <;> rw [h] at hok <;> simp [intClassify] at hok
    · exfalso
      by_cases hne : (stripSign s).2 = []
      · rw [lexicalParse_empty mn mx s hne] at hok
        simp [intClassify] at hok
      · rcases exists_first_fail isDigitCp (stripSign s).2 with hall | ⟨pre, c0, suf, hds, hpre, hc0⟩
        · exact hsh ⟨hne, hall⟩
        · by_cases hm : (digitsVal pre : Int) ≤ magBound mn mx s
          · rw [lexicalParse_invalid mn mx hmn hmx s pre c0 suf hds hpre hc0 hm] at hok
            simp [intClassify] at hok
          · rcases lexicalParse_outOfMag mn mx hmn hmx s pre (c0 :: suf) hds hpre (by omega)
              with h | h <;> rw [h] at hok <;> simp [intClassify] at hok
  · rintro ⟨hsh, hlo, hhi⟩
    rw [lexicalParse_ok mn mx hmn hmx s hsh hlo hhi]
    rfl

theorem digitsVal_dropWhile_zeros (ds : List Nat) :
    digitsVal (ds.dropWhile (fun c => c == 48)) = digitsVal ds := by
  induction ds with
  | nil => rfl
  | cons c cs ih =>
    rw [List.dropWhile_cons]
    by_cases hc : c = 48
    · subst hc
      rw [if_pos (by simp), ih]
      show digitsVal cs = List.foldl (fun a c => a * 10 + (c - 48)) (0 * 10 + (48 - 48)) cs
      norm_num [digitsVal]
    · rw [if_neg (by simp [hc])]

theorem digitsVal_natDecimalChars (n : Nat) : digitsVal (natDecimalChars n) = n := by
  by_cases h : n = 0
  · subst h
    rfl
  · rw [natDecimalChars, if_neg h, digitsVal_eq_ofDigits]
    have hmm : ((((Nat.digits 10 n).map (fun d => d + 48)).reverse).map (fun c => c - 48)).reverse
        = Nat.digits 10 n := by
      rw [List.map_reverse, List.reverse_reverse, List.map_map]
      have : ((fun c => c - 48) ∘ fun d => d + 48) = fun d => d := by
        funext d
        simp
      rw [this]
      simp
    rw [hmm, Nat.ofDigits_digits]

theorem natDecimalChars_all_digits (n : Nat) : ∀ c ∈ natDecimalChars n, isDigitCp c = true := by
  intro c hc
  rw [natDecimalChars] at hc
  by_cases h : n = 0
  · rw [if_pos h] at hc
    simp at hc
    simp [hc, isDigitCp]
  · rw [if_neg h] at hc
    rw [List.mem_reverse, List.mem_map] at hc
    obtain ⟨d, hd, rfl⟩ := hc
    have := Nat.digits_lt_base (by norm_num) hd
    simp [isDigitCp]
    omega

theorem natDecimalChars_ne_nil (n : Nat) : natDecimalChars n ≠ [] := by
  rw [natDecimalChars]
  by_cases h : n = 0
  · simp [h]
  · rw [if_neg h]
    simp [Nat.digits_ne_nil_iff_ne_zero.mpr h]

theorem natDecimalChars_head_ne (n : Nat) (h : n ≠ 0) : (natDecimalChars n).head? ≠ some 48 := by
  rw [natDecimalChars, if_neg h, List.head?_reverse, List.getLast?_map]
  have hne : Nat.digits 10 n ≠ [] := Nat.digits_ne_nil_iff_ne_zero.mpr h
  rw [List.getLast?_eq_getLast _ hne]
  have hlast : (Nat.digits 10 n).getLast hne ≠ 0 := Nat.getLast_digit_ne_zero 10 h
  simp only [Option.map_some', ne_eq, Option.some_inj]
  omega

theorem natDecimalChars_digitsVal_eq (r : List Nat) (hne : r ≠ [])
    (hall : ∀ c ∈ r, isDigitCp c = true) (hhd : r.head? ≠ some 48) :
    natDecimalChars (digitsVal r) = r := by
  have hofd : digitsVal r = Nat.ofDigits 10 ((r.map (fun c => c - 48)).reverse) :=
    digitsVal_eq_ofDigits r
  have hLne : (r.map (fun c => c - 48)).reverse ≠ [] := by simp [hne]
  have hlt : ∀ l ∈ (r.map (fun c => c - 48)).reverse, l < 10 := by
    intro l hl
    rw [List.mem_reverse, List.mem_map] at hl
    obtain ⟨c, hc, rfl⟩ := hl
    have := hall c hc
    simp [isDigitCp] at this
    omega
  have hlast : ∀ (hh : (r.map (fun c => c - 48)).reverse ≠ []),
      ((r.map (fun c => c - 48)).reverse).getLast hh ≠ 0 := by
    intro hh
    have hg : ((r.map (fun c => c - 48)).reverse).getLast? = r.head?.map (fun c => c - 48) := by
      rw [List.getLast?_reverse, List.head?_map]
    have hhead : r.head? = some (r.head hne) := List.head?_eq_head hne
    have hmem : r.head hne ∈ r := List.head_mem hne
    have hd1 : isDigitCp (r.head hne) = true := hall _ hmem
    have hd2 : r.head hne ≠ 48 := by
      intro h
      exact hhd (by rw [hhead, h])
    rw [List.getLast?_eq_getLast _ hh, hhead] at hg
    simp only [Option.map_some', Option.some_inj] at hg
    rw [hg]
    simp [isDigitCp] at hd1
    omega
  have hdig := Nat.digits_ofDigits 10 (by norm_num) _ hlt hlast
  have hnz : digitsVal r ≠ 0 := by
    intro h0
    have h2 := hdig
    rw [← hofd, h0] at h2
    simp only [Nat.digits_zero] at h2
    exact hLne h2.symm
  simp only [natDecimalChars]
  rw [if_neg hnz, hofd, hdig]
  rw [List.map_reverse, List.reverse_reverse, List.map_map]
  have hcg : ∀ c ∈ r, ((fun d => d + 48) ∘ fun c => c - 48) c = c := by
    intro c hc
    have := hall c hc
    simp [isDigitCp] at this
    simp
    omega
  rw [List.map_congr_left hcg]
  simp

theorem dropWhile_first_not {p : Nat → Bool} :
    ∀ (l : List Nat) (c : Nat) (rest : List Nat), l.dropWhile p = c :: rest → p c = false := by
  intro l
  induction l with
  | nil =>
    intro c rest h
    simp at h
  | cons a l ih =>
    intro c rest h
    rw [List.dropWhile_cons] at h
    by_cases hpa : p a = true
    · rw [if_pos hpa] at h
      exact ih c rest h
    · rw [if_neg hpa] at h
      injection h with h1 h2
      subst h1
      simpa using hpa

theorem stripZeros_eq_natDecimalChars (ds : List Nat) (_hne : ds ≠ [])
    (hall : ∀ c ∈ ds, isDigitCp c = true) :
    stripZeros ds = natDecimalChars (digitsVal ds) := by
  simp only [stripZeros]
  cases hdw : ds.dropWhile (fun c => c == 48) with
  | nil =>
    have h0 : digitsVal ds = 0 := by
      rw [← digitsVal_dropWhile_zeros ds, hdw]
      rfl
    rw [h0]
    rfl
  | cons r0 rtl =>
    have hrne : ds.dropWhile (fun c => c == 48) ≠ [] := by simp [hdw]
    have hr0 : r0 ≠ 48 := by
      have hh := dropWhile_first_not ds r0 rtl hdw
      simpa using hh
    have hrall : ∀ c ∈ r0 :: rtl, isDigitCp c = true := by
      intro c hc
      refine hall c ?_
      have hsub := List.dropWhile_sublist (l := ds) (fun c => c == 48)
      rw [hdw] at hsub
      exact hsub.mem hc
    have hv : digitsVal ds = digitsVal (r0 :: rtl) := by
      rw [← digitsVal_dropWhile_zeros ds, hdw]
    rw [hv]
    exact (natDecimalChars_digitsVal_eq (r0 :: rtl) (by simp) hrall
      (by simp [hr0])).symm

theorem intToDecimalStr_ofNat (n : Nat) : intToDecimalStr (n : Int) = natDecimalChars n := by
  simp [intToDecimalStr]

theorem intToDecimalStr_negNat (n : Nat) (h : n ≠ 0) :
    intToDecimalStr (-(n : Int)) = 45 :: natDecimalChars n := by
  have hlt : -(n : Int) < 0 := by omega
  simp only [intToDecimalStr]
  rw [if_pos hlt]
  simp

theorem natDecimalChars_eq_zero_iff (n : Nat) : natDecimalChars n = [48] ↔ n = 0 := by
  constructor
  · intro h
    have := digitsVal_natDecimalChars n
    rw [h] at this
    simpa [digitsVal] using this.symm
  · intro h
    subst h
    rfl

theorem canonicalize_eq_intToDecimalStr (s : RStr) (hsh : IntDigits s) :
    canonicalize s = intToDecimalStr (sVal s) := by
  obtain ⟨hne, hall⟩ := hsh
  match s with
  | [] => exact absurd rfl hne
  | (c :: rest) =>
    by_cases h43 : c = 43
    · subst h43
      rw [stripSign_plus] at hne hall
      replace hne : rest ≠ [] := hne
      replace hall : ∀ c ∈ rest, isDigitCp c = true := hall
      have hv : sVal (43 :: rest) = (digitsVal rest : Int) := by simp [sVal, stripSign_plus]
      have hhd : rest.head? ≠ some 45 := by
        intro hh
        have hmem : (45 : Nat) ∈ rest := by
          cases rest with
          | nil => simp at hh
          | cons a l =>
            simp at hh
            simp [hh]
        have := hall 45 hmem
        simp [isDigitCp] at this
      have hcan : canonicalize (43 :: rest) = stripZeros rest := by
        simp [canonicalize, hhd]
      rw [hcan, hv, stripZeros_eq_natDecimalChars rest hne hall, intToDecimalStr_ofNat]
    · by_cases h45 : c = 45
      · subst h45
        rw [stripSign_minus] at hne hall
        replace hne : rest ≠ [] := hne
        replace hall : ∀ c ∈ rest, isDigitCp c = true := hall
        have hv : sVal (45 :: rest) = -(digitsVal rest : Int) := by simp [sVal, stripSign_minus]
        have hcan : canonicalize (45 :: rest) =
            (if stripZeros rest = [48] then [48] else 45 :: stripZeros rest) := by
          simp [canonicalize]
        rw [hcan, hv, stripZeros_eq_natDecimalChars rest hne hall]
        by_cases h0 : digitsVal rest = 0
        · rw [h0]
          decide
        · rw [if_neg (by
            intro hc
            exact h0 ((natDecimalChars_eq_zero_iff _).mp hc))]
          rw [intToDecimalStr_negNat _ h0]
      · rw [stripSign_other c rest h43 h45] at hne hall
        replace hall : ∀ d ∈ c :: rest, isDigitCp d = true := hall
        have hv : sVal (c :: rest) = (digitsVal (c :: rest) : Int) := by
          simp [sVal, stripSign_other c rest h43 h45]
        have hcan : canonicalize (c :: rest) = stripZeros (c :: rest) := by
          simp [canonicalize, h43, h45]
        rw [hcan, hv, stripZeros_eq_natDecimalChars (c :: rest) (by simp) hall,
          intToDecimalStr_ofNat]

theorem natToBeBytes_length (w n : Nat) : (natToBeBytes w n).length = w := by
  induction w generalizing n with
  | zero => rfl
  | succ w ih => simp [natToBeBytes, ih]

theorem natToBeBytes_lt (w n : Nat) : ∀ b ∈ natToBeBytes w n, b < 256 := by
  induction w generalizing n with
  | zero => simp [natToBeBytes]
  | succ w ih =>
    intro b hb
    simp only [natToBeBytes, List.mem_append, List.mem_singleton] at hb
    rcases hb with h | h
    · exact ih _ b h
    · subst h
      exact Nat.mod_lt _ (by norm_num)

theorem fromBeNat_append_singleton (xs : List Nat) (b : Nat) :
    fromBeNat (xs ++ [b]) = fromBeNat xs * 256 + b := by
  simp [fromBeNat, List.foldl_append]

theorem fromBeNat_natToBeBytes (w : Nat) (n : Nat) :
    fromBeNat (natToBeBytes w n) = n % 256 ^ w := by
  induction w generalizing n with
  | zero => simp [natToBeBytes, fromBeNat, Nat.mod_one]
  | succ w ih =>
    simp only [natToBeBytes]
    rw [fromBeNat_append_singleton, ih]
    have h1 : (256 : Nat) ^ (w + 1) = 256 * 256 ^ w := by ring
    rw [h1, Nat.mod_mul]
    ring

theorem sdecodeBe_twos (w : Nat) (hw : 1 ≤ w) (v : Int)
    (hlo : -(2 ^ (8 * w - 1)) ≤ v) (hhi : v ≤ 2 ^ (8 * w - 1) - 1) :
    sdecodeBe w ((v % ((2 : Int) ^ (8 * w))).toNat) = v := by
  have h8 : 8 * w = (8 * w - 1) + 1 := by omega
  have hpow : (2 : Int) ^ (8 * w) = 2 ^ (8 * w - 1) * 2 := by
    conv_lhs => rw [h8]
    rw [pow_succ]
  have hposK : (0 : Int) < 2 ^ (8 * w - 1) := by positivity
  have hcastK : (((2 : Nat) ^ (8 * w - 1) : Nat) : Int) = (2 : Int) ^ (8 * w - 1) := by
    push_cast
    ring
  rcases le_or_lt 0 v with hv | hv
  · have hemod : v % ((2 : Int) ^ (8 * w)) = v := by
      apply Int.emod_eq_of_lt hv
      omega
    rw [hemod]
    simp only [sdecodeBe]
    rw [if_pos (by omega)]
    omega
  · have hemod : v % ((2 : Int) ^ (8 * w)) = v + 2 ^ (8 * w) := by
      have h1 : (v + 2 ^ (8 * w) * 1) % ((2 : Int) ^ (8 * w)) = v % ((2 : Int) ^ (8 * w)) :=
        Int.add_mul_emod_self_left v (2 ^ (8 * w)) 1
      rw [mul_one] at h1
      rw [← h1]
      exact Int.emod_eq_of_lt (by omega) (by omega)
    rw [hemod]
    simp only [sdecodeBe]
    rw [if_neg (by omega)]
    omega

theorem intValidate_empty (mn mx : Int) (s : RStr) (h : (stripSign s).2 = []) :
    intClassify (lexicalParse mn mx s) = .error .OutOfRange := by
  rw [lexicalParse_empty mn mx s h]
  rfl

theorem intValidate_notAnInt (mn mx : Int) (hmn : mn ≤ 0) (hmx : 0 ≤ mx) (s : RStr)
    (pre : List Nat) (c0 : Nat) (suf : List Nat) (hds : (stripSign s).2 = pre ++ c0 :: suf)
    (hpre : ∀ c ∈ pre, isDigitCp c = true) (hc0 : isDigitCp c0 = false)
    (hmag : (digitsVal pre : Int) ≤ magBound mn mx s) :
    intClassify (lexicalParse mn mx s) = .error .NotAnInt := by
  rw [lexicalParse_invalid mn mx hmn hmx s pre c0 suf hds hpre hc0 hmag]
  rfl

theorem intValidate_overflow_pre (mn mx : Int) (hmn : mn ≤ 0) (hmx : 0 ≤ mx) (s : RStr)
    (pre rest0 : List Nat) (hds : (stripSign s).2 = pre ++ rest0)
    (hpre : ∀ c ∈ pre, isDigitCp c = true) (hmag : magBound mn mx s < (digitsVal pre : Int)) :
    intClassify (lexicalParse mn mx s) = .error .OutOfRange := by
  rcases lexicalParse_outOfMag mn mx hmn hmx s pre rest0 hds hpre hmag with h | h <;>
    rw [h] <;> rfl

theorem intValidate_outOfRange (mn mx : Int) (hmn : mn ≤ 0) (hmx : 0 ≤ mx) (s : RStr)
    (hsh : IntDigits s) (hout : sVal s < mn ∨ mx < sVal s) :
    intClassify (lexicalParse mn mx s) = .error .OutOfRange := by
  obtain ⟨hne, hall⟩ := hsh
  apply intValidate_overflow_pre mn mx hmn hmx s (stripSign s).2 [] (by simp) hall
  rcases hb : (stripSign s).1 with _ | _
  · rw [show sVal s = (digitsVal (stripSign s).2 : Int) by simp [sVal, hb]] at hout
    rw [show magBound mn mx s = mx by simp [magBound, hb]]
    have : (0 : Int) ≤ (digitsVal (stripSign s).2 : Int) := Int.natCast_nonneg _
    omega
  · rw [show sVal s = -(digitsVal (stripSign s).2 : Int) by simp [sVal, hb]] at hout
    rw [show magBound mn mx s = -mn by simp [magBound, hb]]
    have : (0 : Int) ≤ (digitsVal (stripSign s).2 : Int) := Int.natCast_nonneg _
    omega

theorem pow256_eq (w : Nat) : (256 : Nat) ^ w = 2 ^ (8 * w) := by
  rw [show (256 : Nat) = 2 ^ 8 from rfl, ← pow_mul]

theorem intSer_ok (mn mx : Int) (w : Nat) (hmn : mn ≤ 0) (hmx : 0 ≤ mx) (s : RStr)
    (hok : intClassify (lexicalParse mn mx s) = .ok ()) :
    intSer mn mx w s = some (natToBeBytes w ((sVal s % ((2 : Int) ^ (8 * w))).toNat)) := by
  obtain ⟨hsh, hlo, hhi⟩ := (intValidate_ok_iff mn mx hmn hmx s).mp hok
  rw [intSer, lexicalParse_ok mn mx hmn hmx s hsh hlo hhi]

theorem intSerDes_roundtrip (mn mx : Int) (w : Nat) (hw : 1 ≤ w)
    (hmn : mn = -(2 ^ (8 * w - 1))) (hmx : mx = 2 ^ (8 * w - 1) - 1) (s : RStr)
    (hok : intClassify (lexicalParse mn mx s) = .ok ()) :
    (intSer mn mx w s).bind (intDes w) = some (canonicalize s) := by
  have hposK : (0 : Int) < 2 ^ (8 * w - 1) := by positivity
  have hmn0 : mn ≤ 0 := by omega
  have hmx0 : 0 ≤ mx := by omega
  obtain ⟨hsh, hlo, hhi⟩ := (intValidate_ok_iff mn mx hmn0 hmx0 s).mp hok
  rw [intSer_ok mn mx w hmn0 hmx0 s hok]
  rw [Option.some_bind]
  have hlen : (natToBeBytes w ((sVal s % ((2 : Int) ^ (8 * w))).toNat)).length = w :=
    natToBeBytes_length w _
  simp only [intDes]
  rw [if_pos (le_of_eq hlen.symm)]
  rw [List.take_of_length_le (by rw [hlen])]
  rw [fromBeNat_natToBeBytes]
  have hMpos : (0 : Int) < (2 : Int) ^ (8 * w) := by positivity
  have hMcast : (((2 : Nat) ^ (8 * w) : Nat) : Int) = (2 : Int) ^ (8 * w) := by
    push_cast
    ring
  have hemod1 : (0 : Int) ≤ sVal s % ((2 : Int) ^ (8 * w)) :=
    Int.emod_nonneg _ (ne_of_gt hMpos)
  have hemod2 : sVal s % ((2 : Int) ^ (8 * w)) < (2 : Int) ^ (8 * w) :=
    Int.emod_lt_of_pos _ hMpos
  have hu : ((sVal s % ((2 : Int) ^ (8 * w))).toNat) % 256 ^ w
      = (sVal s % ((2 : Int) ^ (8 * w))).toNat := by
    apply Nat.mod_eq_of_lt
    rw [pow256_eq]
    omega
  rw [hu]
  rw [sdecodeBe_twos w hw (sVal s) (by omega) (by omega)]
  rw [canonicalize_eq_intToDecimalStr s hsh]

/-! ### Lemmas about UTF-8 encoding and trimming -/

theorem utf8EncodeChar_length (c : Nat) : (utf8EncodeChar c).length = utf8Size c := by
  simp only [utf8EncodeChar, utf8Size]
  split_ifs <;> rfl

theorem utf8Encode_length (s : RStr) : (utf8Encode s).length = byteLen s := by
  induction s with
  | nil => rfl
  | cons c cs ih => simp [utf8Encode, byteLen, utf8EncodeChar_length, ih]

theorem byteLen_cons (c : Nat) (cs : RStr) : byteLen (c :: cs) = utf8Size c + byteLen cs := by
  simp [byteLen]

theorem utf8EncodeChar_size_pos (c : Nat) : 1 ≤ utf8Size c := by
  simp only [utf8Size]
  split_ifs <;> omega

theorem utf8DecodeOne_encodeChar (c : Nat) (h : ValidScalar c) (rest : List Nat) :
    utf8DecodeOne (utf8EncodeChar c ++ rest) = some (c, rest) := by
  by_cases h1 : c < 128
  · simp only [utf8EncodeChar, if_pos h1, List.cons_append, List.nil_append]
    simp only [utf8DecodeOne]
    rw [if_pos h1]
  · by_cases h2 : c < 2048
    · simp only [utf8EncodeChar, if_neg h1, if_pos h2, List.cons_append, List.nil_append]
      simp only [utf8DecodeOne]
      have hc1 : isCont (128 + c % 64) = true := by
        simp only [isCont, Bool.and_eq_true, decide_eq_true_eq]
        omega
      rw [if_neg (by omega), if_neg (by omega), if_pos (by omega)]
      simp only [hc1, if_true]
      have hcp : (192 + c / 64 - 192) * 64 + (128 + c % 64 - 128) = c := by omega
      rw [hcp]
    · by_cases h3 : c < 65536
      · have hsur : c < 55296 ∨ 57343 < c := by
          rcases h with hA | hB
          · omega
          · omega
        simp only [utf8EncodeChar, if_neg h1, if_neg h2, if_pos h3, List.cons_append,
          List.nil_append]
        simp only [utf8DecodeOne]
        have hc1 : isCont (128 + c / 64 % 64) = true := by
          simp only [isCont, Bool.and_eq_true, decide_eq_true_eq]
          omega
        have hc2 : isCont (128 + c % 64) = true := by
          simp only [isCont, Bool.and_eq_true, decide_eq_true_eq]
          omega
        rw [if_neg (by omega), if_neg (by omega), if_neg (by omega), if_pos (by omega)]
        simp only [hc1, hc2, Bool.and_self, if_true]
        have hcp : (224 + c / 4096 - 224) * 4096 + (128 + c / 64 % 64 - 128) * 64 +
            (128 + c % 64 - 128) = c := by omega
        rw [hcp]
        rw [if_pos ⟨by omega, hsur⟩]
      · have hc4 : c ≤ 1114111 := by
          rcases h with hA | hB
          · omega
          · omega
        simp only [utf8EncodeChar, if_neg h1, if_neg h2, if_neg h3, List.cons_append,
          List.nil_append]
        simp only [utf8DecodeOne]
        have hc1 : isCont (128 + c / 4096 % 64) = true := by
          simp only [isCont, Bool.and_eq_true, decide_eq_true_eq]
          omega
        have hc2 : isCont (128 + c / 64 % 64) = true := by
          simp only [isCont, Bool.and_eq_true, decide_eq_true_eq]
          omega
        have hc3 : isCont (128 + c % 64) = true := by
          simp only [isCont, Bool.and_eq_true, decide_eq_true_eq]
          omega
        rw [if_neg (by omega), if_neg (by omega), if_neg (by omega), if_neg (by omega),
          if_pos (by omega)]
        simp only [hc1, hc2, hc3, Bool.and_self, if_true]
        have hcp : (240 + c / 262144 - 240) * 262144 + (128 + c / 4096 % 64 - 128) * 4096 +
            (128 + c / 64 % 64 - 128) * 64 + (128 + c % 64 - 128) = c := by omega
        rw [hcp]
        rw [if_pos ⟨by omega, hc4⟩]

theorem utf8DecodeFuel_encode (s : RStr) : ∀ (fuel : Nat), ValidStr s →
    byteLen s ≤ fuel → utf8DecodeFuel fuel (utf8Encode s) = some s := by
  induction s with
  | nil =>
    intro fuel _ _
    cases fuel <;> rfl
  | cons c cs ih =>
    intro fuel hv hfuel
    have hc : ValidScalar c := hv c (List.mem_cons_self c cs)
    have hcs : ValidStr cs := fun d hd => hv d (List.mem_cons_of_mem c hd)
    have hsz := utf8EncodeChar_size_pos c
    rw [byteLen_cons] at hfuel
    match fuel with
    | 0 => omega
    | fuel + 1 =>
      show utf8DecodeFuel (fuel + 1) (utf8EncodeChar c ++ utf8Encode cs) = some (c :: cs)
      have hne : ∃ b0 bs, utf8EncodeChar c ++ utf8Encode cs = b0 :: bs := by
        cases hec : utf8EncodeChar c with
        | nil =>
          exfalso
          have := utf8EncodeChar_length c
          rw [hec] at this
          simp at this
          omega
        | cons b0 bs => exact ⟨b0, bs ++ utf8Encode cs, by simp [hec]⟩
      obtain ⟨b0, bs, hbs⟩ := hne
      rw [hbs]
      simp only [utf8DecodeFuel]
      rw [← hbs, utf8DecodeOne_encodeChar c hc]
      show (utf8DecodeFuel fuel (utf8Encode cs)).map (fun r => c :: r) = some (c :: cs)
      rw [ih fuel hcs (by omega)]
      rfl

theorem utf8Decode_encode (s : RStr) (h : ValidStr s) : utf8Decode (utf8Encode s) = some s := by
  rw [utf8Decode, utf8Encode_length]
  exact utf8DecodeFuel_encode s (byteLen s) h le_rfl

theorem trimEnd_validStr (s : RStr) (h : ValidStr s) : ValidStr (trimEnd s) := by
  intro c hc
  apply h
  simp only [trimEnd, List.mem_reverse] at hc
  have hsub := List.dropWhile_sublist (l := s.reverse) isRustWhitespace
  have := hsub.mem hc
  simpa using this

/-! ### Claim-level statements -/

/-- The three supported integer `SqlType`s, used to quantify claims over
`SmallInt`, `Integer` and `BigInt`. -/
inductive IntSqlType
  | smallInt
  | integer
  | bigInt
deriving DecidableEq

/-- Lower bound of each integer type's range. -/
def IntSqlType.mnBound : IntSqlType → Int
  | .smallInt => -32768
  | .integer => -2147483648
  | .bigInt => -9223372036854775808

/-- Upper bound of each integer type's range. -/
def IntSqlType.mxBound : IntSqlType → Int
  | .smallInt => 32767
  | .integer => 2147483647
  | .bigInt => 9223372036854775807

/-- Encoded width in bytes of each integer type. -/
def IntSqlType.width : IntSqlType → Nat
  | .smallInt => 2
  | .integer => 4
  | .bigInt => 8

/-- The constraint `validate` of each integer type. -/
def IntSqlType.constraintValidate : IntSqlType → RStr → Except ConstraintError Unit
  | .smallInt, s => SmallIntTypeConstraint.validate s
  | .integer, s => IntegerSqlTypeConstraint.validate s
  | .bigInt, s => BigIntTypeConstraint.validate s

/-- The serializer `ser` of each integer type. -/
def IntSqlType.ser : IntSqlType → RStr → Option (List Nat)
  | .smallInt, s => SmallIntTypeSerializer.ser s
  | .integer, s => IntegerSqlTypeSerializer.ser s
  | .bigInt, s => BigIntTypeSerializer.ser s

/-- The serializer `des` of each integer type. -/
def IntSqlType.des : IntSqlType → List Nat → Option RStr
  | .smallInt, bs => SmallIntTypeSerializer.des bs
  | .integer, bs => IntegerSqlTypeSerializer.des bs
  | .bigInt, bs => BigIntTypeSerializer.des bs

theorem IntSqlType.constraintValidate_eq (t : IntSqlType) (s : RStr) :
    t.constraintValidate s = intClassify (lexicalParse t.mnBound t.mxBound s) := by
  cases t <;> rfl

theorem IntSqlType.ser_eq (t : IntSqlType) (s : RStr) :
    t.ser s = intSer t.mnBound t.mxBound t.width s := by
  cases t <;> rfl

theorem IntSqlType.des_eq (t : IntSqlType) (bs : List Nat) :
    t.des bs = intDes t.width bs := by
  cases t <;> rfl

theorem IntSqlType.width_pos (t : IntSqlType) : 1 ≤ t.width := by
  cases t <;> decide

theorem IntSqlType.mnBound_eq (t : IntSqlType) : t.mnBound = -(2 ^ (8 * t.width - 1)) := by
  cases t <;> decide

theorem IntSqlType.mxBound_eq (t : IntSqlType) : t.mxBound = 2 ^ (8 * t.width - 1) - 1 := by
  cases t <;> decide

theorem IntSqlType.mnBound_nonpos (t : IntSqlType) : t.mnBound ≤ 0 := by
  cases t <;> decide

theorem IntSqlType.mxBound_nonneg (t : IntSqlType) : 0 ≤ t.mxBound := by
  cases t <;> decide

/-- C1: corrected classification of the integer constraints.  `validate`
returns `Ok` exactly on an optional sign followed by a nonempty digit
string whose signed value is in range; an empty or sign-only input is
`OutOfRange` (the `lexical` `Empty` error is not `InvalidDigit`); a
well-shaped but out-of-range input is `OutOfRange`; an input with a
non-digit character after the optional sign is `NotAnInt` when the digit
prefix before the first non-digit stays within the sign's magnitude bound,
and `OutOfRange` (overflow hit first) when that prefix already exceeds
it. -/
theorem C1_amended_intValidate_classification :
    ∀ (t : IntSqlType) (s : RStr),
      (t.constraintValidate s = .ok () ↔
        IntDigits s ∧ t.mnBound ≤ sVal s ∧ sVal s ≤ t.mxBound) ∧
      ((stripSign s).2 = [] → t.constraintValidate s = .error .OutOfRange) ∧
      (IntDigits s → (sVal s < t.mnBound ∨ t.mxBound < sVal s) →
        t.constraintValidate s = .error .OutOfRange) ∧
      (∀ pre c0 suf, (stripSign s).2 = pre ++ c0 :: suf →
        (∀ c ∈ pre, isDigitCp c = true) → isDigitCp c0 = false →
        (digitsVal pre : Int) ≤ magBound t.mnBound t.mxBound s →
        t.constraintValidate s = .error .NotAnInt) ∧
      (∀ pre rest0, (stripSign s).2 = pre ++ rest0 →
        (∀ c ∈ pre, isDigitCp c = true) →
        magBound t.mnBound t.mxBound s < (digitsVal pre : Int) →
        t.constraintValidate s = .error .OutOfRange) := by
  intro t s
  have hmn := t.mnBound_nonpos
  have hmx := t.mxBound_nonneg
  rw [IntSqlType.constraintValidate_eq]
  refine ⟨intValidate_ok_iff t.mnBound t.mxBound hmn hmx s, ?_, ?_, ?_, ?_⟩
  · intro h
    exact intValidate_empty t.mnBound t.mxBound s h
  · intro hsh hout
    exact intValidate_outOfRange t.mnBound t.mxBound hmn hmx s hsh hout
  · intro pre c0 suf hds hpre hc0 hm
    exact intValidate_notAnInt t.mnBound t.mxBound hmn hmx s pre c0 suf hds hpre hc0 hm
  · intro pre rest0 hds hpre hm
    exact intValidate_overflow_pre t.mnBound t.mxBound hmn hmx s pre rest0 hds hpre hm

/-- C1 counterexample: the claim says the empty input is classified
`NotAnInt`, but `lexical` reports `Empty` for it, which the constraint's
catch-all arm maps to `OutOfRange`. -/
theorem C1_counterexample :
    ¬ SmallIntTypeConstraint.validate [] = .error .NotAnInt := by
  decide

/-- C1 witness: concrete uses of the amended classification at `"32767"`
(`Ok`) and `"-3276.9"` (`NotAnInt`). -/
theorem C1_witness :
    SmallIntTypeConstraint.validate [51, 50, 55, 54, 55] = .ok () ∧
    SmallIntTypeConstraint.validate [45, 51, 50, 55, 54, 46, 57] = .error .NotAnInt := by
  constructor
  · exact (C1_amended_intValidate_classification .smallInt [51, 50, 55, 54, 55]).1.mpr
      ⟨by decide, by decide, by decide⟩
  · exact (C1_amended_intValidate_classification .smallInt
      [45, 51, 50, 55, 54, 46, 57]).2.2.2.1 [51, 50, 55, 54] 46 [57]
      (by decide) (by decide) (by decide) (by decide)

/-- C2: for every supported integer `SqlType` and every text accepted by
its constraint, decoding the encoding yields the canonical form of the
text: leading `+` stripped, `-0` collapsed to `0`, leading zeros
dropped. -/
theorem C2_integer_roundtrip_canonicalize (t : IntSqlType) (s : RStr)
    (h : t.constraintValidate s = .ok ()) :
    (t.ser s).bind t.des = some (canonicalize s) := by
  rw [IntSqlType.constraintValidate_eq] at h
  rw [IntSqlType.ser_eq]
  have hdes : t.des = intDes t.width := by
    funext bs
    exact t.des_eq bs
  rw [hdes]
  exact intSerDes_roundtrip t.mnBound t.mxBound t.width t.width_pos t.mnBound_eq t.mxBound_eq s h

/-- C2 witness: `SmallInt` accepts `"+007"` and the codec round-trips it to
the canonical `"7"`. -/
theorem C2_witness :
    (IntSqlType.smallInt.ser [43, 48, 48, 55]).bind IntSqlType.smallInt.des = some [55] := by
  have h := C2_integer_roundtrip_canonicalize .smallInt [43, 48, 48, 55] (by decide)
  rw [h]
  decide

/-- Decimal formatting produces a representation in the sense of
`IsDecimalRepr`. -/
theorem intToDecimalStr_isDecimalRepr (v : Int) : IsDecimalRepr v (intToDecimalStr v) := by
  by_cases hv : v < 0
  · refine ⟨natDecimalChars v.natAbs, by simp [intToDecimalStr, hv], natDecimalChars_ne_nil _,
      natDecimalChars_all_digits _, ?_, ?_⟩
    · rw [digitsVal_natDecimalChars]
      rw [Int.abs_eq_natAbs]
    · intro hh
      exfalso
      exact natDecimalChars_head_ne v.natAbs (by omega) hh
  · refine ⟨natDecimalChars v.natAbs, by simp [intToDecimalStr, hv], natDecimalChars_ne_nil _,
      natDecimalChars_all_digits _, ?_, ?_⟩
    · rw [digitsVal_natDecimalChars]
      rw [Int.abs_eq_natAbs]
    · intro hh
      by_cases h0 : v.natAbs = 0
      · rw [h0]
        rfl
      · exact absurd hh (natDecimalChars_head_ne v.natAbs h0)

/-- Encoding side of C3: on a validated input, `ser` returns exactly `w`
bytes, each below 256, whose big-endian valuation is the two's-complement
residue of the parsed value. -/
theorem intSer_bytes (mn mx : Int) (w : Nat) (_hw : 1 ≤ w)
    (hmn : mn = -(2 ^ (8 * w - 1))) (hmx : mx = 2 ^ (8 * w - 1) - 1) (s : RStr)
    (hok : intClassify (lexicalParse mn mx s) = .ok ()) :
    ∃ bs, intSer mn mx w s = some bs ∧ bs.length = w ∧ (∀ b ∈ bs, b < 256) ∧
      (beVal bs : Int) = sVal s % ((2 : Int) ^ (8 * w)) := by
  have hposK : (0 : Int) < 2 ^ (8 * w - 1) := by positivity
  have hmn0 : mn ≤ 0 := by omega
  have hmx0 : 0 ≤ mx := by omega
  refine ⟨_, intSer_ok mn mx w hmn0 hmx0 s hok, natToBeBytes_length w _, natToBeBytes_lt w _, ?_⟩
  rw [← fromBeNat_eq_beVal, fromBeNat_natToBeBytes]
  have hMpos : (0 : Int) < (2 : Int) ^ (8 * w) := by positivity
  have hMcast : (((2 : Nat) ^ (8 * w) : Nat) : Int) = (2 : Int) ^ (8 * w) := by
    push_cast
    ring
  have hemod1 : (0 : Int) ≤ sVal s % ((2 : Int) ^ (8 * w)) :=
    Int.emod_nonneg _ (ne_of_gt hMpos)
  have hemod2 : sVal s % ((2 : Int) ^ (8 * w)) < (2 : Int) ^ (8 * w) :=
    Int.emod_lt_of_pos _ hMpos
  have hu : ((sVal s % ((2 : Int) ^ (8 * w))).toNat) % 256 ^ w
      = (sVal s % ((2 : Int) ^ (8 * w))).toNat := by
    apply Nat.mod_eq_of_lt
    rw [pow256_eq]
    omega
  rw [hu]
  omega

/-- Decoding side of C3: with at least `w` leading bytes, `des` succeeds
and formats the signed big-endian reading of the first `w` bytes as a
decimal representation. -/
theorem intDes_repr (w : Nat) (bs : List Nat) (h : w ≤ bs.length) :
    ∃ o, intDes w bs = some o ∧ IsDecimalRepr (sdecodeBe w (beVal (bs.take w))) o := by
  refine ⟨intToDecimalStr (sdecodeBe w (fromBeNat (bs.take w))), by simp [intDes, h], ?_⟩
  rw [← fromBeNat_eq_beVal]
  exact intToDecimalStr_isDecimalRepr _

/-- C3: the integer codecs' wire format.  Encode on a validated input emits
exactly `width` big-endian two's-complement bytes (2, 4, 8 for `SmallInt`,
`Integer`, `BigInt`) with no prefix; decode on a sequence with at least
`width` leading bytes reads the first `width` bytes big-endian as a signed
value and prints it in decimal with no leading zeros and a sign only for
negatives. -/
theorem C3_integer_codec_wire_format :
    IntSqlType.smallInt.width = 2 ∧ IntSqlType.integer.width = 4 ∧ IntSqlType.bigInt.width = 8 ∧
    (∀ (t : IntSqlType) (s : RStr), t.constraintValidate s = .ok () →
      ∃ bs, t.ser s = some bs ∧ bs.length = t.width ∧ (∀ b ∈ bs, b < 256) ∧
        (beVal bs : Int) = sVal s % ((2 : Int) ^ (8 * t.width))) ∧
    (∀ (t : IntSqlType) (bs : List Nat), t.width ≤ bs.length →
      ∃ o, t.des bs = some o ∧ IsDecimalRepr (sdecodeBe t.width (beVal (bs.take t.width))) o) := by
  refine ⟨rfl, rfl, rfl, ?_, ?_⟩
  · intro t s h
    rw [IntSqlType.constraintValidate_eq] at h
    rw [IntSqlType.ser_eq]
    exact intSer_bytes t.mnBound t.mxBound t.width t.width_pos t.mnBound_eq t.mxBound_eq s h
  · intro t bs h
    rw [IntSqlType.des_eq]
    exact intDes_repr t.width bs h

/-- C3 witness: concrete uses of both parts at `SmallInt` with input `"1"`
and byte sequence `[0, 1, 7]`. -/
theorem C3_witness :
    (∃ bs, IntSqlType.smallInt.ser [49] = some bs ∧ bs.length = 2) ∧
    (∃ o, IntSqlType.smallInt.des [0, 1, 7] = some o) := by
  constructor
  · obtain ⟨bs, h1, h2, _, _⟩ :=
      C3_integer_codec_wire_format.2.2.2.1 .smallInt [49] (by decide)
    exact ⟨bs, h1, h2⟩
  · obtain ⟨o, h1, _⟩ := C3_integer_codec_wire_format.2.2.2.2 .smallInt [0, 1, 7] (by decide)
    exact ⟨o, h1⟩

/-- Modelled from the spec: ASCII whitespace test (the spec's phrase
"trailing ASCII whitespace"), covering the ASCII control whitespace
characters and the space. -/
def isAsciiWhitespace (c : Nat) : Bool :=
  c = 9 || c = 10 || c = 11 || c = 12 || c = 13 || c = 32

/-- Modelled from the spec: removal of trailing ASCII whitespace only. -/
def asciiTrimEnd (s : RStr) : RStr := (s.reverse.dropWhile isAsciiWhitespace).reverse

/-- C4: corrected string-constraint behavior.  `Char(n)` and `VarChar(n)`
right-trim trailing Unicode whitespace (Rust `char::is_whitespace`), not
only ASCII whitespace, and then compare the byte length of the trimmed
input with `n`: `ValueTooLong` exactly when it exceeds `n`, `Ok`
otherwise. -/
theorem C4_amended_string_constraint_length :
    ∀ (n : Nat) (s : RStr),
      (CharSqlTypeConstraint.validate n s = .error .ValueTooLong ↔ n < byteLen (trimEnd s)) ∧
      (CharSqlTypeConstraint.validate n s = .ok () ↔ byteLen (trimEnd s) ≤ n) ∧
      (VarCharSqlTypeConstraint.validate n s = .error .ValueTooLong ↔ n < byteLen (trimEnd s)) ∧
      (VarCharSqlTypeConstraint.validate n s = .ok () ↔ byteLen (trimEnd s) ≤ n) := by
  intro n s
  unfold CharSqlTypeConstraint.validate VarCharSqlTypeConstraint.validate
  by_cases h : n < byteLen (trimEnd s) <;> simp [h] <;> omega

/-- C4 counterexample: on `"a\u{00A0}"` (a non-breaking space, which is
Unicode whitespace but not ASCII whitespace) with `n = 1`, the constraint
returns `Ok` because `str::trim_end` removes the non-breaking space, while
the claim's ASCII-trim semantics would leave 3 bytes and demand
`ValueTooLong`. -/
theorem C4_counterexample :
    ¬ CharSqlTypeConstraint.validate 1 [97, 160] =
      (if 1 < byteLen (asciiTrimEnd [97, 160]) then .error .ValueTooLong else .ok ()) := by
  decide

/-- C5: corrected string-codec round-trip.  For well-formed input,
`decode(encode(text))` is `text` with trailing Unicode whitespace (Rust
`char::is_whitespace`) removed — not only ASCII whitespace — and `encode`
emits exactly the UTF-8 bytes of the trimmed input with no padding to any
declared length. -/
theorem C5_amended_string_roundtrip (s : RStr) (h : ValidStr s) :
    CharSqlTypeSerializer.des (CharSqlTypeSerializer.ser s) = some (trimEnd s) ∧
    VarCharSqlTypeSerializer.des (VarCharSqlTypeSerializer.ser s) = some (trimEnd s) ∧
    (CharSqlTypeSerializer.ser s).length = byteLen (trimEnd s) ∧
    (VarCharSqlTypeSerializer.ser s).length = byteLen (trimEnd s) := by
  have hts := trimEnd_validStr s h
  exact ⟨utf8Decode_encode _ hts, utf8Decode_encode _ hts,
    utf8Encode_length _, utf8Encode_length _⟩

/-- C5 counterexample: for `"a\u{00A0}"`, the codec round-trip yields
`"a"` (the non-breaking space is trimmed), not the ASCII-trimmed original
`"a\u{00A0}"` the claim requires. -/
theorem C5_counterexample :
    ¬ CharSqlTypeSerializer.des (CharSqlTypeSerializer.ser [97, 160]) =
      some (asciiTrimEnd [97, 160]) := by
  decide

/-- C5 witness: the round-trip at the concrete input `"a "`. -/
theorem C5_witness :
    CharSqlTypeSerializer.des (CharSqlTypeSerializer.ser [97, 32]) = some [97] ∧
    (CharSqlTypeSerializer.ser [97, 32]).length = 1 := by
  have h := C5_amended_string_roundtrip [97, 32] (by decide)
  exact ⟨by rw [h.1]; decide, by rw [h.2.2.1]; decide⟩

/-- C6: `to_pg_types` is total and maps each of the 15 `SqlType` variants
to the matching `PostgreSqlType` variant, dropping the `Char` and
`VarChar` length parameters. -/
theorem C6_wire_mapping_total :
    SqlType.Bool.to_pg_types = PostgreSqlType.Bool ∧
    (∀ n, (SqlType.Char n).to_pg_types = PostgreSqlType.Char) ∧
    (∀ n, (SqlType.VarChar n).to_pg_types = PostgreSqlType.VarChar) ∧
    SqlType.Decimal.to_pg_types = PostgreSqlType.Decimal ∧
    SqlType.SmallInt.to_pg_types = PostgreSqlType.SmallInt ∧
    SqlType.Integer.to_pg_types = PostgreSqlType.Integer ∧
    SqlType.BigInt.to_pg_types = PostgreSqlType.BigInt ∧
    SqlType.Real.to_pg_types = PostgreSqlType.Real ∧
    SqlType.DoublePrecision.to_pg_types = PostgreSqlType.DoublePrecision ∧
    SqlType.Time.to_pg_types = PostgreSqlType.Time ∧
    SqlType.TimeWithTimeZone.to_pg_types = PostgreSqlType.TimeWithTimeZone ∧
    SqlType.Timestamp.to_pg_types = PostgreSqlType.Timestamp ∧
    SqlType.TimestampWithTimeZone.to_pg_types = PostgreSqlType.TimestampWithTimeZone ∧
    SqlType.Date.to_pg_types = PostgreSqlType.Date ∧
    SqlType.Interval.to_pg_types = PostgreSqlType.Interval := by
  exact ⟨rfl, fun _ => rfl, fun _ => rfl, rfl, rfl, rfl, rfl, rfl, rfl, rfl, rfl, rfl, rfl,
    rfl, rfl⟩

/-- C7: `constraint` and `serializer` succeed exactly on `Char(_)`,
`VarChar(_)`, `SmallInt`, `Integer`, `BigInt` (with the `Char`/`VarChar`
length kept by the constraint and dropped by the serializer), and every
one of the ten other variants fails with the `unimplemented!` signal
carrying that same variant. -/
theorem C7_catalog_partiality :
    (∀ n, SqlType.constraint (.Char n) = .ok (.charC n)) ∧
    (∀ n, SqlType.constraint (.VarChar n) = .ok (.varCharC n)) ∧
    SqlType.constraint .SmallInt = .ok .smallInt ∧
    SqlType.constraint .Integer = .ok .integer ∧
    SqlType.constraint .BigInt = .ok .bigInt ∧
    (∀ n, SqlType.serializer (.Char n) = .ok .charS) ∧
    (∀ n, SqlType.serializer (.VarChar n) = .ok .varCharS) ∧
    SqlType.serializer .SmallInt = .ok .smallInt ∧
    SqlType.serializer .Integer = .ok .integer ∧
    SqlType.serializer .BigInt = .ok .bigInt ∧
    SqlType.constraint .Bool = .error .Bool ∧
    SqlType.constraint .Decimal = .error .Decimal ∧
    SqlType.constraint .Real = .error .Real ∧
    SqlType.constraint .DoublePrecision = .error .DoublePrecision ∧
    SqlType.constraint .Time = .error .Time ∧
    SqlType.constraint .TimeWithTimeZone = .error .TimeWithTimeZone ∧
    SqlType.constraint .Timestamp = .error .Timestamp ∧
    SqlType.constraint .TimestampWithTimeZone = .error .TimestampWithTimeZone ∧
    SqlType.constraint .Date = .error .Date ∧
    SqlType.constraint .Interval = .error .Interval ∧
    SqlType.serializer .Bool = .error .Bool ∧
    SqlType.serializer .Decimal = .error .Decimal ∧
    SqlType.serializer .Real = .error .Real ∧
    SqlType.serializer .DoublePrecision = .error .DoublePrecision ∧
    SqlType.serializer .Time = .error .Time ∧
    SqlType.serializer .TimeWithTimeZone = .error .TimeWithTimeZone ∧
    SqlType.serializer .Timestamp = .error .Timestamp ∧
    SqlType.serializer .TimestampWithTimeZone = .error .TimestampWithTimeZone ∧
    SqlType.serializer .Date = .error .Date ∧
    SqlType.serializer .Interval = .error .Interval := by
  exact ⟨fun _ => rfl, fun _ => rfl, rfl, rfl, rfl, fun _ => rfl, fun _ => rfl, rfl, rfl, rfl,
    rfl, rfl, rfl, rfl, rfl, rfl, rfl, rfl, rfl, rfl,
    rfl, rfl, rfl, rfl, rfl, rfl, rfl, rfl, rfl, rfl⟩

/-- C10: `Char(n)` and `VarChar(n)` are behaviorally identical: their
constraints agree on every input and length, their codecs agree on every
input, and the declared length never reaches the codec (the serializer
catalog result is independent of it). -/
theorem C10_char_varchar_equivalence :
    (∀ (n : Nat) (s : RStr),
      CharSqlTypeConstraint.validate n s = VarCharSqlTypeConstraint.validate n s) ∧
    (∀ s, CharSqlTypeSerializer.ser s = VarCharSqlTypeSerializer.ser s) ∧
    (∀ bs, CharSqlTypeSerializer.des bs = VarCharSqlTypeSerializer.des bs) ∧
    (∀ n m, SqlType.serializer (.Char n) = SqlType.serializer (.Char m)) ∧
    (∀ n m, SqlType.serializer (.VarChar n) = SqlType.serializer (.VarChar m)) ∧
    (∀ (n : Nat) (s : RStr),
      (SqlType.constraint (.Char n)).map (fun c => c.validate s) =
        (SqlType.constraint (.VarChar n)).map (fun c => c.validate s)) := by
  exact ⟨fun _ _ => rfl, fun _ => rfl, fun _ => rfl, fun _ _ => rfl, fun _ _ => rfl,
    fun _ _ => rfl⟩

/-- Assignment right-hand shapes the UPDATE coercion accepts. -/
def SupportedAssignmentShape (e : SqlExpr) : Prop :=
  (∃ v, e = .Value (.Number v)) ∨ (∃ v, e = .Value (.SingleQuotedString v)) ∨
    (∃ v, e = .UnaryOp .Minus (.Value (.Number v)))

/-- C8: corrected UPDATE value coercion.  The enumerated reductions hold
(numeric literal to its text, single-quoted string to its unquoted text,
unary minus on a numeric literal to `"-"` plus the text), and every other
shape panics via `unimplemented!` — the command aborts with no result at
all, rather than returning `QueryError::not_supported_operation`. -/
theorem C8_amended_update_coercion :
    (∀ v, reduceValue (.Value (.Number v)) = some v) ∧
    (∀ v, reduceValue (.Value (.SingleQuotedString v)) = some v) ∧
    (∀ v, reduceValue (.UnaryOp .Minus (.Value (.Number v))) = some ("-" ++ v)) ∧
    (∀ e : SqlExpr, reduceValue e = none ↔ ¬ SupportedAssignmentShape e) ∧
    (∀ (col : String) (e : SqlExpr) (asgs : List Assignment), reduceValue e = none →
      reduceAssignments (⟨col, e⟩ :: asgs) = none) ∧
    (∀ (raw sch tbl : String) (asgs : List Assignment)
      (g : String → String → List (String × String) →
        SystemResult (Except OperationOnTableError Nat)),
      reduceAssignments asgs = none → UpdateCommand.execute raw [sch, tbl] asgs g = none) := by
  refine ⟨fun _ => rfl, fun _ => rfl, fun _ => rfl, ?_, ?_, ?_⟩
  · intro e
    constructor
    · intro hn hs
      rcases hs with ⟨v, rfl⟩ | ⟨v, rfl⟩ | ⟨v, rfl⟩ <;> simp [reduceValue] at hn
    · intro hns
      cases e with
      | Value v =>
        cases v with
        | Number s => exact absurd (Or.inl ⟨s, rfl⟩) hns
        | SingleQuotedString s => exact absurd (Or.inr (Or.inl ⟨s, rfl⟩)) hns
        | Boolean b => rfl
        | Null => rfl
      | UnaryOp op ex =>
        cases op with
        | Minus =>
          cases ex with
          | Value v =>
            cases v with
            | Number s => exact absurd (Or.inr (Or.inr ⟨s, rfl⟩)) hns
            | SingleQuotedString s => rfl
            | Boolean b => rfl
            | Null => rfl
          | UnaryOp op2 e2 => rfl
          | Identifier s => rfl
          | Wildcard => rfl
        | Plus =>
          cases ex with
          | Value v => cases v <;> rfl
          | UnaryOp op2 e2 => rfl
          | Identifier s => rfl
          | Wildcard => rfl
        | Not =>
          cases ex with
          | Value v => cases v <;> rfl
          | UnaryOp op2 e2 => rfl
          | Identifier s => rfl
          | Wildcard => rfl
      | Identifier s => rfl
      | Wildcard => rfl
  · intro col e asgs hred
    simp [reduceAssignments, hred]
  · intro raw sch tbl asgs g hasgs
    simp [UpdateCommand.execute, hasgs]

/-- C8 counterexample: an UPDATE assignment `x = y` (an identifier on the
right-hand side) makes `execute` panic with no result; in particular it
does not terminate the command with
`QueryError::not_supported_operation(raw_sql)` as the claim states. -/
theorem C8_counterexample :
    ¬ UpdateCommand.execute "UPDATE schema_name.table_name SET x = y"
        ["schema_name", "table_name"] [⟨"x", SqlExpr.Identifier "y"⟩]
        (fun _ _ _ => .ok (.ok 0)) =
      some (.ok (.error
        (.not_supported_operation "UPDATE schema_name.table_name SET x = y"))) := by
  intro hcl
  have hnone : UpdateCommand.execute "UPDATE schema_name.table_name SET x = y"
      ["schema_name", "table_name"] [⟨"x", SqlExpr.Identifier "y"⟩]
      (fun _ _ _ => .ok (.ok 0)) = none := rfl
  rw [hnone] at hcl
  exact Option.noConfusion hcl

/-- C8 witness: the panic clauses applied at the concrete unsupported
assignment `x = y`. -/
theorem C8_witness :
    reduceAssignments [⟨"x", SqlExpr.Identifier "y"⟩] = none ∧
    UpdateCommand.execute "UPDATE s.t SET x = y" ["s", "t"]
      [⟨"x", SqlExpr.Identifier "y"⟩] (fun _ _ _ => .ok (.ok 0)) = none := by
  refine ⟨?_, ?_⟩
  · exact C8_amended_update_coercion.2.2.2.2.1 "x" (SqlExpr.Identifier "y") [] rfl
  · exact C8_amended_update_coercion.2.2.2.2.2 "UPDATE s.t SET x = y" "s" "t"
      [⟨"x", SqlExpr.Identifier "y"⟩] (fun _ _ _ => .ok (.ok 0)) rfl

/-- C9: the command skins' result translation.  For each storage response,
CREATE SCHEMA, DROP SCHEMA and UPDATE produce the paired `QueryEvent` or
`QueryError` — `SchemaAlreadyExists` to `schema_already_exists(name)`,
`SchemaDoesNotExist` to `schema_does_not_exist(name)`, `TableDoesNotExist`
to `table_does_not_exist("schema.table")`, `ColumnDoesNotExist(names)` to
`column_does_not_exist(names)`, any other operation failure to
`not_supported_operation(raw_sql)`, successes to `SchemaCreated`,
`SchemaDropped` and `RecordsUpdated(n)`, and system-level errors are
forwarded unchanged. -/
theorem C9_command_error_translation :
    (∀ nm : String, CreateSchemaCommand.execute nm (fun _ => .ok (.ok ())) =
      .ok (.ok .SchemaCreated)) ∧
    (∀ nm : String, CreateSchemaCommand.execute nm (fun _ => .ok (.error .mk)) =
      .ok (.error (.schema_already_exists nm))) ∧
    (∀ (nm : String) (e : SystemError), CreateSchemaCommand.execute nm (fun _ => .error e) =
      .error e) ∧
    (∀ (nm : String) (rest : List String),
      DropSchemaCommand.execute (nm :: rest) (fun _ => .ok (.ok ())) =
        some (.ok (.ok .SchemaDropped))) ∧
    (∀ (nm : String) (rest : List String),
      DropSchemaCommand.execute (nm :: rest) (fun _ => .ok (.error .mk)) =
        some (.ok (.error (.schema_does_not_exist nm)))) ∧
    (∀ (nm : String) (rest : List String) (e : SystemError),
      DropSchemaCommand.execute (nm :: rest) (fun _ => .error e) = some (.error e)) ∧
    (∀ (raw sch tbl col v : String) (n : Nat),
      UpdateCommand.execute raw [sch, tbl] [⟨col, .Value (.Number v)⟩]
        (fun _ _ _ => .ok (.ok n)) = some (.ok (.ok (.RecordsUpdated n)))) ∧
    (∀ raw sch tbl col v : String,
      UpdateCommand.execute raw [sch, tbl] [⟨col, .Value (.Number v)⟩]
        (fun _ _ _ => .ok (.error .SchemaDoesNotExist)) =
      some (.ok (.error (.schema_does_not_exist sch)))) ∧
    (∀ raw sch tbl col v : String,
      UpdateCommand.execute raw [sch, tbl] [⟨col, .Value (.Number v)⟩]
        (fun _ _ _ => .ok (.error .TableDoesNotExist)) =
      some (.ok (.error (.table_does_not_exist (sch ++ "." ++ tbl))))) ∧
    (∀ (raw sch tbl col v : String) (cols : List String),
      UpdateCommand.execute raw [sch, tbl] [⟨col, .Value (.Number v)⟩]
        (fun _ _ _ => .ok (.error (.ColumnDoesNotExist cols))) =
      some (.ok (.error (.column_does_not_exist cols)))) ∧
    (∀ raw sch tbl col v : String,
      UpdateCommand.execute raw [sch, tbl] [⟨col, .Value (.Number v)⟩]
        (fun _ _ _ => .ok (.error .OtherOperationFailure)) =
      some (.ok (.error (.not_supported_operation raw)))) ∧
    (∀ (raw sch tbl col v : String) (e : SystemError),
      UpdateCommand.execute raw [sch, tbl] [⟨col, .Value (.Number v)⟩]
        (fun _ _ _ => .error e) = some (.error e)) := by
  exact ⟨fun _ => rfl, fun _ => rfl, fun _ _ => rfl, fun _ _ => rfl, fun _ _ => rfl,
    fun _ _ _ => rfl, fun _ _ _ _ _ _ => rfl, fun _ _ _ _ _ => rfl, fun _ _ _ _ _ => rfl,
    fun _ _ _ _ _ _ => rfl, fun _ _ _ _ _ => rfl, fun _ _ _ _ _ _ => rfl⟩
